import Mathlib

/-!
# cors-proksy: the request handler and the redirect-following engine

A shallow embedding of `src/cors-proksy.js`.  JavaScript strings are Lean strings,
header objects are association lists in insertion order, the mutable `req`, `res`
and `proxyRes` objects are records passed explicitly, and the calls into Node's
standard library (`url.parse`, `url.resolve`, `net.isIPv4`, `net.isIPv6`), which are
not part of the repository, are a parameter `NodeLib` of every function that uses them.
-/

namespace CorsProksy

/-! ## JavaScript objects with string keys -/

/-- A JavaScript object used as a header map: its own properties in insertion order.
A header value is a string (a multi-valued `set-cookie` is held as one joined string). -/
abbrev Obj := List (String × String)

/-- Property read `o[k]`; `none` is `undefined`. -/
def Obj.get (o : Obj) (k : String) : Option String :=
  o.lookup k

/-- Property write `o[k] = v`: an existing key keeps its position, a new key goes last. -/
def Obj.set : Obj → String → String → Obj
  | [], k, v => [(k, v)]
  | (k', v') :: t, k, v => if k' = k then (k', v) :: t else (k', v') :: Obj.set t k v

/-- Property removal `delete o[k]`. -/
def Obj.delete (o : Obj) (k : String) : Obj :=
  o.filter (fun p => !(p.1 == k))

/-- The value of `Object.hasOwnProperty.call(o, k)`. -/
def Obj.has (o : Obj) (k : String) : Bool :=
  (o.lookup k).isSome

/-- The number that the decimal digits `cs` write after the digits of `acc`. -/
def digitsValue (acc : Nat) (cs : List Char) : Nat :=
  cs.foldl (fun n c => 10 * n + (c.toNat - 48)) acc

/-- The number written by a non-empty run of decimal digits. -/
def decimalValue (cs : List Char) : Option Nat :=
  if cs.all Char.isDigit && !cs.isEmpty then some (digitsValue 0 cs) else none

/-- The value of `s.toLowerCase()` for a text in ASCII. -/
def lowerCase (s : String) : String :=
  String.mk (s.data.map Char.toLower)

/-- A canonical array index: the decimal form of a number below `2^32 - 1`.  Such keys are
enumerated first, in ascending numeric order. -/
def arrayIndex (k : String) : Option Nat :=
  match decimalValue k.data with
  | some n =>
    if (k.data.length == 1 || !(k.data.head? == some '0')) && decide (n < 4294967295) then some n
    else none
  | none => none

/-- The value of `Object.keys(o)`: array-index keys ascending, then the others in insertion order. -/
def Obj.keys (o : Obj) : List String :=
  let ks := o.map Prod.fst
  (ks.filter (fun k => (arrayIndex k).isSome)).insertionSort
      (fun a b => (arrayIndex a).getD 0 ≤ (arrayIndex b).getD 0)
    ++ ks.filter (fun k => (arrayIndex k).isNone)

/-- Truthiness of a property that is a string or `undefined`. -/
def truthy : Option String → Bool
  | some s => !(s == "")
  | none => false

/-! ## The pattern of `parseURL` -/

/-- The character class `[\/?]`. -/
def isSep (c : Char) : Bool :=
  c == '/' || c == '?'

/-- A letter of the pattern under the `i` flag: `l` is the lower-case letter. -/
def ciEq (c l : Char) : Bool :=
  c == l || c == l.toUpper

/-- The sub-pattern `https?:` under the `i` flag, anchored at the start: the matched text
and the remaining input.  (`s?` is greedy; both orders give the same result.) -/
def matchScheme : List Char → Option (List Char × List Char)
  | c1 :: c2 :: c3 :: c4 :: c5 :: r1 =>
    if ciEq c1 'h' && ciEq c2 't' && ciEq c3 't' && ciEq c4 'p' then
      if ciEq c5 's' then
        match r1 with
        | ':' :: r2 => some ([c1, c2, c3, c4, c5, ':'], r2)
        | _ => none
      else if c5 == ':' then some ([c1, c2, c3, c4, ':'], r1)
      else none
    else none
  | _ => none

/-- Group 5, `([\/?][\S\s]*|$)`: the rest of the input, which is empty or starts with a separator. -/
def matchPath : List Char → Option (List Char)
  | [] => some []
  | c :: r => if isSep c then some (c :: r) else none

/-- The lookahead `(?=[\/?]|$)`. -/
def lookahead : List Char → Bool
  | [] => true
  | c :: _ => isSep c

/-- Group 4 read as the first `n` characters of `r`, then the lookahead and group 5. -/
def matchAfterDigits (n : Nat) (r : List Char) : Option (List Char × List Char) :=
  if lookahead (r.drop n) then (matchPath (r.drop n)).map (fun p => (r.take n, p)) else none

/-- Group 4 with its lookahead and group 5 after it: `\d{0,5}` is greedy, so `n` digits are tried
first and fewer ones on failure.  `r` is the input after the colon. -/
def matchDigits : Nat → List Char → Option (List Char × List Char)
  | 0, r => matchAfterDigits 0 r
  | n + 1, r =>
    match matchAfterDigits (n + 1) r with
    | some m => some m
    | none => matchDigits n r

/-- The group `(?::(\d{0,5})(?=[\/?]|$))` followed by group 5: the digits and the path. -/
def matchPort : List Char → Option (List Char × List Char)
  | ':' :: r => matchDigits (min 5 (r.takeWhile Char.isDigit).length) r
  | _ => none

/-- The optional port followed by group 5: the port is tried first. -/
def matchPortPath (cs : List Char) : Option (Option (List Char) × List Char) :=
  match matchPort cs with
  | some (d, p) => some (some d, p)
  | none => (matchPath cs).map (fun p => (none, p))

/-- Group 3, the lazy `[^\/?]+?`, with what follows it: `acc` is the hostname read so far
(not empty); the shortest hostname after which the rest of the pattern matches wins. -/
def matchHost : List Char → List Char → Option (List Char × Option (List Char) × List Char)
  | acc, [] =>
    match matchPortPath [] with
    | some (port, path) => some (acc, port, path)
    | none => none
  | acc, c :: r =>
    match matchPortPath (c :: r) with
    | some (port, path) => some (acc, port, path)
    | none => if isSep c then none else matchHost (acc ++ [c]) r

/-- Groups 2 to 5 at the start of `cs`. -/
def matchAuthority : List Char → Option (List Char × Option (List Char) × List Char)
  | [] => none
  | c :: r => if isSep c then none else matchHost [c] r

/-- The capture groups of the pattern of `parseURL`. -/
structure UrlMatch where
  /-- Group 1, `undefined` when absent. -/
  protocol : Option String
  /-- Group 2. -/
  host : String
  /-- Group 3. -/
  hostname : String
  /-- Group 4, `undefined` when absent. -/
  port : Option String
  /-- Group 5. -/
  path : String
deriving DecidableEq, Repr

/-- Build the groups from what `matchAuthority` found. -/
def UrlMatch.ofParts (protocol : Option (List Char))
    (m : List Char × Option (List Char) × List Char) : UrlMatch :=
  { protocol := protocol.map String.mk
    host := String.mk (m.1 ++ (match m.2.1 with | some d => ':' :: d | none => []))
    hostname := String.mk m.1
    port := m.2.1.map String.mk
    path := String.mk m.2.2 }

/-- The first alternative of the prefix `(?:(https?:)?\/\/)?`: a scheme and two slashes. -/
def matchWithScheme (cs : List Char) : Option UrlMatch :=
  match matchScheme cs with
  | some (p, '/' :: '/' :: r) => (matchAuthority r).map (UrlMatch.ofParts (some p))
  | _ => none

/-- The second alternative of the prefix: two slashes without a scheme. -/
def matchWithSlashes : List Char → Option UrlMatch
  | '/' :: '/' :: r => (matchAuthority r).map (UrlMatch.ofParts none)
  | _ => none

/-- The value of
`req_url.match(/^(?:(https?:)?\/\/)?(([^\/?]+?)(?::(\d{0,5})(?=[\/?]|$))?)([\/?][\S\s]*|$)/i)`,
with the alternatives in the order in which the backtracking matcher tries them. -/
def urlMatch (req_url : String) : Option UrlMatch :=
  match matchWithScheme req_url.data with
  | some m => some m
  | none =>
    match matchWithSlashes req_url.data with
    | some m => some m
    | none => (matchAuthority req_url.data).map (UrlMatch.ofParts none)

/-! ## Node's standard library, and `parseURL` -/

/-- The object returned by `url.parse`.  A field that is `null` is the empty string here
(the code only tests such fields for truthiness), except `port`, which is compared as a number. -/
structure Url where
  protocol : String
  host : String
  hostname : String
  port : Option String
  path : String
  href : String
deriving DecidableEq, Repr

/-- The functions of Node's standard library that the proxy calls. -/
structure NodeLib where
  /-- The function `url.parse`. -/
  urlParse : String → Url
  /-- The function `url.resolve`. -/
  urlResolve : String → String → String
  /-- The function `net.isIPv4`. -/
  isIPv4 : String → Bool
  /-- The function `net.isIPv6`. -/
  isIPv6 : String → Bool

/-- The scheme that the input spells out: `http:` or `https:` when the input begins with
`http://` or `https://` in any letter case, and `none` when it does not. -/
def explicitScheme (req_url : String) : Option String :=
  match matchScheme req_url.data with
  | some (p, '/' :: '/' :: _) => some (String.mk (p.map Char.toLower))
  | _ => none

/-- The port that the pattern of `parseURL` reads from the input (group 4). -/
def inputPort (req_url : String) : Option String :=
  (urlMatch req_url).bind (fun m => m.port)

/-- The invariant of a target location: a hostname that is not empty and the protocol `http:` or
`https:` in lower case. -/
def Url.isTarget (u : Url) : Prop :=
  u.hostname ≠ "" ∧ (u.protocol = "http:" ∨ u.protocol = "https:")

/-- The value of `/^https?:/i.test(req_url)`. -/
def hasSchemePrefix (req_url : String) : Bool :=
  (matchScheme req_url.data).isSome

/-- The value of `req_url.lastIndexOf('//', 0) === -1`. -/
def lacksLeadingSlashes (req_url : String) : Bool :=
  match req_url.data with
  | '/' :: '/' :: _ => false
  | _ => true

/-- The function `parseURL`; `none` is `null`. -/
def parseURL (lib : NodeLib) (req_url : String) : Option Url :=
  match urlMatch req_url with
  | none => none
  | some m =>
    let prepared : Option String :=
      if truthy m.protocol then some req_url
      else if hasSchemePrefix req_url then none
      else
        let withSlashes := if lacksLeadingSlashes req_url then "//" ++ req_url else req_url
        some ((if m.port = some "443" then "https:" else "http:") ++ withSlashes)
    match prepared with
    | none => none
    | some u =>
      let parsed := lib.urlParse u
      if parsed.hostname = "" then none else some parsed

/-! ## Requests, responses and the per-request state -/

/-- The object `req.corsProksyRequestState`.  A property that has not been assigned is `none`. -/
structure RequestState where
  /-- The proxy-selection function; the empty string is "no proxy". -/
  getProxyForUrl : String → String
  maxRedirects : Nat
  corsMaxAge : Nat
  location : Option Url
  proxyBaseUrl : Option String
  redirectCount_ : Option Nat

/-- The incoming request `req`, as far as the proxy reads and writes it. -/
structure Request where
  method : String
  url : String
  headers : Obj
  /-- The value of `req.connection.encrypted`. -/
  encrypted : Bool
  corsProksyRequestState : RequestState

/-- The outgoing response `res` before its head is written: the headers set with `res.setHeader`,
under the names the code gave them. -/
structure Response where
  headers : Obj

/-- The statement `res.setHeader(name, value)`. -/
def Response.setHeader (res : Response) (name value : String) : Response :=
  { headers := Obj.set res.headers name value }

/-- The upstream response `proxyRes`. -/
structure ProxyRes where
  statusCode : Nat
  headers : Obj

/-- A response written by the proxy itself: `res.writeHead(statusCode, statusMessage, headers)`
followed by `res.end(body)`. -/
structure Reply where
  statusCode : Nat
  statusMessage : Option String
  headers : Obj
  body : String
deriving DecidableEq, Repr

/-- The property `target` of the options given to `proxy.web`. -/
inductive Target where
  | location (u : Url)
  | through (proxyUrl : String)
deriving DecidableEq, Repr

/-- One call `proxy.web(req, res, proxyOptions)`: the request as it is at the call and the options.
The library http-proxy builds the outbound request from them: it copies `req.headers`, lays the
option `headers` over them and adds headers of its own (`x-forwarded-*`, `connection`). -/
structure ProxyCall where
  req : Request
  target : Target
  toProxy : Bool
  /-- The property `headers` of the options. -/
  headers : Obj

/-! ## `withCORS`, `showUsage`, `proxyRequest` -/

/-- The function `withCORS`: the headers it returns and the request, whose two pre-flight
headers it deletes. -/
def withCORS (headers : Obj) (request : Request) : Obj × Request :=
  let h1 := Obj.set headers "access-control-allow-origin" "*"
  let corsMaxAge := request.corsProksyRequestState.corsMaxAge
  let h2 :=
    if request.method = "OPTIONS" ∧ corsMaxAge ≠ 0 then
      Obj.set h1 "access-control-max-age" (toString corsMaxAge)
    else h1
  let acrm := Obj.get request.headers "access-control-request-method"
  let h3 := if truthy acrm then Obj.set h2 "access-control-allow-methods" (acrm.getD "") else h2
  let rh1 :=
    if truthy acrm then Obj.delete request.headers "access-control-request-method"
    else request.headers
  let acrh := Obj.get rh1 "access-control-request-headers"
  let h4 := if truthy acrh then Obj.set h3 "access-control-allow-headers" (acrh.getD "") else h3
  let rh2 := if truthy acrh then Obj.delete rh1 "access-control-request-headers" else rh1
  let h5 := Obj.set h4 "access-control-expose-headers" (",".intercalate (Obj.keys h4))
  (h5, { request with headers := rh2 })

/-- The value of `/\.html$/.test(help_file)`. -/
def isHtmlFile (help_file : String) : Bool :=
  ".html".data.isSuffixOf help_file.data

/-- The names of the functions that every plain object inherits from `Object.prototype`. -/
def inheritedFunctions : List String :=
  ["constructor", "__defineGetter__", "__defineSetter__", "hasOwnProperty", "__lookupGetter__",
    "__lookupSetter__", "isPrototypeOf", "propertyIsEnumerable", "toString", "valueOf",
    "toLocaleString"]

/-- The value of `help_text[help_file]`, where `help_text` is the plain object of line 15 whose
own properties are the cached texts. -/
inductive CacheEntry where
  /-- A cached text. -/
  | text (data : String)
  /-- A function inherited from `Object.prototype`. -/
  | inheritedFunction
  /-- The prototype itself, which is the value of `__proto__`. -/
  | inheritedObject
  /-- The value `undefined`. -/
  | absent

/-- The property read `help_text[help_file]`: an own property first, then the prototype. -/
def cacheLookup (help_text : Obj) (help_file : String) : CacheEntry :=
  match Obj.get help_text help_file with
  | some data => CacheEntry.text data
  | none =>
    if help_file = "__proto__" then CacheEntry.inheritedObject
    else if help_file ∈ inheritedFunctions then CacheEntry.inheritedFunction
    else CacheEntry.absent

/-- How the request handler leaves a request. -/
inductive Outcome where
  /-- The handler wrote a response itself. -/
  | reply (r : Reply)
  /-- The hook `handleInitialRequest` took the request. -/
  | intercepted
  /-- The handler called `proxyRequest`, which called `proxy.web`. -/
  | proxied (call : ProxyCall)
  /-- An exception escaped the handler. -/
  | threw

/-- The function `showUsage`: what it does to the response and the module-level cache `help_text`
after it.  `readFile` is the file system (`none` is a read error).  Line 20 takes every value of
`help_text[help_file]` other than `undefined` for a cached text: given an inherited function,
`response.end` takes it for its callback and writes no body; given an object, it throws.  After a
successful read the text is cached and the function calls itself once, finding the text in the
cache. -/
def showUsage (readFile : String → Option String) (help_text : Obj) (help_file : String)
    (headers : Obj) : Outcome × Obj :=
  let headers := Obj.set headers "content-type" (if isHtmlFile help_file then "text/html" else "text/plain")
  match cacheLookup help_text help_file with
  | CacheEntry.text data => (Outcome.reply (Reply.mk 200 none headers data), help_text)
  | CacheEntry.inheritedFunction => (Outcome.reply (Reply.mk 200 none headers ""), help_text)
  | CacheEntry.inheritedObject => (Outcome.threw, help_text)
  | CacheEntry.absent =>
    match readFile help_file with
    | none => (Outcome.reply (Reply.mk 500 none headers ""), help_text)
    | some data =>
      (Outcome.reply (Reply.mk 200 none headers data), Obj.set help_text help_file data)

/-- The function `proxyRequest`: the request after it and the call to `proxy.web` it makes.
It is `none` when `location` is unset (reading a property of `undefined` throws). -/
def proxyRequest (req : Request) : Option (Request × ProxyCall) :=
  match req.corsProksyRequestState.location with
  | none => none
  | some location =>
    let proxyThroughUrl := req.corsProksyRequestState.getProxyForUrl location.href
    let hostHeaders : Obj := [("host", location.host)]
    if proxyThroughUrl = "" then
      let req1 := { req with url := location.path }
      some (req1, { req := req1, target := Target.location location, toProxy := false,
                    headers := hostHeaders })
    else
      let req1 := { req with url := location.href }
      some (req1, { req := req1, target := Target.through proxyThroughUrl, toProxy := true,
                    headers := hostHeaders })

/-! ## `onProxyResponse` -/

/-- Lines 139 to 144: the resolved `locationHeader` and `parsedLocation`, when the upstream sent a
truthy `Location` that `parseURL` accepts after resolution against the current target. -/
def resolveLocation (lib : NodeLib) (current : Url) (proxyRes : ProxyRes) : Option (String × Url) :=
  match Obj.get proxyRes.headers "location" with
  | none => none
  | some locationHeader =>
    if locationHeader = "" then none
    else
      let resolved := lib.urlResolve current.href locationHeader
      (parseURL lib resolved).map (fun parsed => (resolved, parsed))

/-- The value of `requestState.redirectCount_ + 1 || 1`. -/
def nextRedirectCount : Option Nat → Nat
  | none => 1
  | some c => c + 1

/-- The value of `!requestState.redirectCount_`. -/
def noRedirectYet : Option Nat → Bool
  | none => true
  | some c => c == 0

/-- What one call of `onProxyResponse` leaves behind. -/
structure Step where
  /-- The returned boolean: `true` hands `proxyRes` on to the client. -/
  result : Bool
  req : Request
  res : Response
  proxyRes : ProxyRes
  /-- The call to `proxy.web` made through `proxyRequest`, if any. -/
  call : Option ProxyCall

/-- Lines 179 to 185: strip the cookies, set `x-final-url`, add the CORS headers, return `true`. -/
def handOn (location : Url) (req : Request) (res : Response) (proxyRes : ProxyRes) : Step :=
  let h1 := Obj.delete proxyRes.headers "set-cookie"
  let h2 := Obj.delete h1 "set-cookie2"
  let h3 := Obj.set h2 "x-final-url" location.href
  let cors := withCORS h3 req
  { result := true, req := cors.2, res := res,
    proxyRes := { proxyRes with headers := cors.1 }, call := none }

/-- The status codes tested on line 138. -/
def isRedirectStatus (statusCode : Nat) : Bool :=
  statusCode == 301 || statusCode == 302 || statusCode == 303 || statusCode == 307 ||
    statusCode == 308

/-- The status codes tested on line 146. -/
def isFollowedStatus (statusCode : Nat) : Bool :=
  statusCode == 301 || statusCode == 302 || statusCode == 303

/-- The function `onProxyResponse`.  It is `none` when `location` is unset (the read of
`requestState.location.href` throws). -/
def onProxyResponse (lib : NodeLib) (proxyRes : ProxyRes) (req : Request) (res : Response) :
    Option Step :=
  let requestState := req.corsProksyRequestState
  match requestState.location with
  | none => none
  | some location =>
    let statusCode := proxyRes.statusCode
    let res1 :=
      if noRedirectYet requestState.redirectCount_ then res.setHeader "x-request-url" location.href
      else res
    if isRedirectStatus statusCode then
      match resolveLocation lib location proxyRes with
      | some (locationHeader, parsedLocation) =>
        let rewrittenLocation := requestState.proxyBaseUrl.getD "undefined" ++ "/" ++ locationHeader
        let rewritten : ProxyRes :=
          { proxyRes with headers := Obj.set proxyRes.headers "location" rewrittenLocation }
        if isFollowedStatus statusCode then
          let count := nextRedirectCount requestState.redirectCount_
          let counted : Request :=
            { req with corsProksyRequestState := { requestState with redirectCount_ := some count } }
          if count ≤ requestState.maxRedirects then
            let res2 := res1.setHeader ("X-CORS-Redirect-" ++ toString count)
              (toString statusCode ++ " " ++ locationHeader)
            let req1 : Request :=
              { req with
                method := "GET"
                headers := Obj.delete (Obj.set req.headers "content-length" "0") "content-type"
                corsProksyRequestState :=
                  { requestState with redirectCount_ := some count, location := some parsedLocation } }
            match proxyRequest req1 with
            | none => none
            | some (req2, call) =>
              some { result := false, req := req2, res := res2, proxyRes := proxyRes,
                     call := some call }
          else some (handOn location counted res1 rewritten)
        else some (handOn location req res1 rewritten)
      | none =>
        -- `locationHeader` stays resolved (or absent) and `proxyRes.headers.location` is not rewritten
        some (handOn location req res1 proxyRes)
    else some (handOn location req res1 proxyRes)

/-! ## `getHandler` and the error listener of `createServer` -/

/-- The option `requireHeader` as the caller may give it. -/
inductive RequireHeaderOption where
  /-- A falsy value (the default `null`). -/
  | unset
  /-- A non-empty string. -/
  | name (headerName : String)
  /-- An array of strings. -/
  | names (headerNames : List String)
  /-- Any other truthy value. -/
  | other

/-- The object `corsProksy` after the caller's options are copied over the defaults. -/
structure Config where
  /-- The hook, if any: whether it took the request.  A hook that declines is taken to leave
  `req` and `res` as they were. -/
  handleInitialRequest : Option (Request → Option Url → Bool)
  getProxyForUrl : String → String
  maxRedirects : Nat
  redirectSameOrigin : Bool
  requireHeader : RequireHeaderOption
  removeHeaders : List String
  setHeaders : Obj
  helpFile : String
  corsMaxAge : Nat

/-- The defaults of `getHandler`, for a given proxy-selection function. -/
def Config.default (getProxyForUrl : String → String) : Config :=
  { handleInitialRequest := none, getProxyForUrl := getProxyForUrl, maxRedirects := 5,
    redirectSameOrigin := false, requireHeader := RequireHeaderOption.unset, removeHeaders := [],
    setHeaders := [], helpFile := "./readme.md", corsMaxAge := 0 }

/-- Lines 261 to 265: the state object that the handler attaches to every request. -/
def Config.initialState (corsProksy : Config) : RequestState :=
  { getProxyForUrl := corsProksy.getProxyForUrl
    maxRedirects := corsProksy.maxRedirects
    corsMaxAge := corsProksy.corsMaxAge
    location := none
    proxyBaseUrl := none
    redirectCount_ := none }

/-- Lines 243 to 253: `requireHeader` as an array of lower-case names, or `null`. -/
def normalizeRequireHeader : RequireHeaderOption → Option (List String)
  | RequireHeaderOption.unset => none
  | RequireHeaderOption.name s => if s = "" then none else some [lowerCase s]
  | RequireHeaderOption.names l => if l.isEmpty then none else some (l.map lowerCase)
  | RequireHeaderOption.other => none

/-- The function `hasRequiredHeaders`. -/
def hasRequiredHeaders (requireHeader : Option (List String)) (headers : Obj) : Bool :=
  match requireHeader with
  | none => true
  | some l => l.any (fun headerName => Obj.has headers headerName)

/-- The function `isValidHostName`. -/
def isValidHostName (lib : NodeLib) (hostname : String) : Bool :=
  lib.isIPv4 hostname || lib.isIPv6 hostname

/-- The value of `/^\/https?:\/[^/]/i.test(url)`. -/
def isMissingSlash (url : String) : Bool :=
  match url.data with
  | '/' :: r =>
    match matchScheme r with
    | some (_, '/' :: c :: _) => !(c == '/')
    | _ => false
  | _ => false

/-- The value of `/^\/https?:/.test(url)`; this pattern has no `i` flag. -/
def hasExplicitScheme (url : String) : Bool :=
  "/http:".data.isPrefixOf url.data || "/https:".data.isPrefixOf url.data

/-- The class `\s` of a JavaScript pattern. -/
def isJsSpace (c : Char) : Bool :=
  c == '\t' || c == '\n' || c.toNat == 11 || c.toNat == 12 || c == '\r' || c == ' ' ||
    c.toNat == 0xA0 || c.toNat == 0x1680 || (0x2000 ≤ c.toNat && c.toNat ≤ 0x200A) ||
    c.toNat == 0x2028 || c.toNat == 0x2029 || c.toNat == 0x202F || c.toNat == 0x205F ||
    c.toNat == 0x3000 || c.toNat == 0xFEFF

/-- The value of `/^\s*https/.test(v)`, where an absent header is tested as the text `undefined`. -/
def forwardedHttps (v : Option String) : Bool :=
  match v with
  | none => false
  | some s => "https".data.isPrefixOf (s.data.dropWhile isJsSpace)

/-- The value of `location.port > 65535`: the port is compared as a number. -/
def portTooLarge (port : Option String) : Bool :=
  match port with
  | none => false
  | some p =>
    match decimalValue p.data with
    | some n => decide (65535 < n)
    | none => false

/-- The same-origin test of lines 323 and 324. -/
def isSameOrigin (origin href : String) : Bool :=
  !(origin == "") && href.data.get? origin.data.length == some '/' &&
    origin.data.isPrefixOf href.data

/-- The upstream call of an outcome, if one was made. -/
def Outcome.call : Outcome → Option ProxyCall
  | Outcome.proxied c => some c
  | _ => none

/-- The reply of an outcome, if the handler wrote one. -/
def Outcome.reply? : Outcome → Option Reply
  | Outcome.reply r => some r
  | _ => none

/-- The request handler returned by `getHandler(options, proxy)`: the outcome and the help-text
cache after it.  `req.corsProksyRequestState` is overwritten on entry. -/
def getHandler (corsProksy : Config) (lib : NodeLib) (readFile : String → Option String)
    (help_text : Obj) (req : Request) : Outcome × Obj :=
  let requireHeader := normalizeRequireHeader corsProksy.requireHeader
  let req0 : Request := { req with corsProksyRequestState := corsProksy.initialState }
  let cors := withCORS [] req0
  let cors_headers := cors.1
  let req1 := cors.2
  if req1.method = "OPTIONS" then
    (Outcome.reply (Reply.mk 200 none cors_headers ""), help_text)
  else
    let location := parseURL lib (String.mk (req1.url.data.drop 1))
    let taken :=
      match corsProksy.handleInitialRequest with
      | some hook => hook req1 location
      | none => false
    if taken then (Outcome.intercepted, help_text)
    else
      match location with
      | none =>
        if isMissingSlash req1.url then
          (Outcome.reply (Reply.mk 400 (some "Missing slash") cors_headers
            "The URL is invalid: two slashes are needed after the http(s):."), help_text)
        else
          showUsage readFile help_text corsProksy.helpFile cors_headers
      | some location =>
        if location.host = "iscorsneeded" then
          (Outcome.reply (Reply.mk 200 none [("Content-Type", "text/plain")] "no"), help_text)
        else if portTooLarge location.port then
          (Outcome.reply (Reply.mk 400 (some "Invalid port") cors_headers
            ("Port number too large: " ++ location.port.getD "null")), help_text)
        else if !hasExplicitScheme req1.url && !isValidHostName lib location.hostname then
          (Outcome.reply (Reply.mk 404 (some "Invalid host") cors_headers
            ("Invalid host: " ++ location.hostname)), help_text)
        else if !hasRequiredHeaders requireHeader req1.headers then
          (Outcome.reply (Reply.mk 400 (some "Header required") cors_headers
            ("Missing required request header. Must specify one of: " ++
              ",".intercalate (requireHeader.getD []))), help_text)
        else
          let origin := (Obj.get req1.headers "origin").getD ""
          if corsProksy.redirectSameOrigin && isSameOrigin origin location.href then
            let h1 := Obj.set cors_headers "vary" "origin"
            let h2 := Obj.set h1 "cache-control" "private"
            let h3 := Obj.set h2 "location" location.href
            (Outcome.reply (Reply.mk 301 (some "Please use a direct request") h3 ""), help_text)
          else
            let isRequestedOverHttps :=
              req1.encrypted || forwardedHttps (Obj.get req1.headers "x-forwarded-proto")
            let proxyBaseUrl := (if isRequestedOverHttps then "https://" else "http://") ++
              (Obj.get req1.headers "host").getD "undefined"
            let removed := corsProksy.removeHeaders.foldl (fun h header => Obj.delete h header)
              req1.headers
            let added := (Obj.keys corsProksy.setHeaders).foldl
              (fun h header => Obj.set h header ((Obj.get corsProksy.setHeaders header).getD ""))
              removed
            let state : RequestState :=
              { req1.corsProksyRequestState with
                location := some location
                proxyBaseUrl := some proxyBaseUrl }
            let req2 : Request := { req1 with headers := added, corsProksyRequestState := state }
            match proxyRequest req2 with
            | some (_, call) => (Outcome.proxied call, help_text)
            | none => (Outcome.threw, help_text)

/-- The `error` listener that `createServer` puts on the proxy: the response it writes, or `none`
when the head was already sent and the response is only ended. -/
def onProxyError (headersSent : Bool) (err : String) : Option Reply :=
  if headersSent then none
  else
    some (Reply.mk 404 none [("Access-Control-Allow-Origin", "*")]
      ("Not found because of proxy error: " ++ err))

/-! ## The engine driven by a sequence of upstream responses -/

/-- What a sequence of upstream responses leaves behind. -/
structure Trace where
  /-- The value returned by `onProxyResponse` for each response, in order. -/
  results : List Bool
  req : Request
  res : Response
  /-- The response that was handed on to the client, as `onProxyResponse` left it. -/
  handed : Option ProxyRes
  /-- The calls to `proxy.web` made for the followed redirects, in order. -/
  calls : List ProxyCall

/-- The listener installed by `proxyRequest` (lines 75 to 83), run on the upstream responses of one
client request in the order of their arrival: each is given to `onProxyResponse` with the request
and response objects as the previous call left them. -/
def feed (lib : NodeLib) : List ProxyRes → Request → Response → Option Trace
  | [], req, res => some { results := [], req := req, res := res, handed := none, calls := [] }
  | proxyRes :: rest, req, res =>
    match onProxyResponse lib proxyRes req res with
    | none => none
    | some step =>
      match feed lib rest step.req step.res with
      | none => none
      | some t =>
        some { results := step.result :: t.results, req := t.req, res := t.res,
               handed := if step.result then some step.proxyRes else t.handed,
               calls := step.call.toList ++ t.calls }

/-- The resolved `Location` and the parsed target of every hop of a chain of redirects that
starts at `current`, each paired with its status code; `none` unless every response has a status
that is followed and a `Location` that `resolveLocation` accepts. -/
def chainTargets (lib : NodeLib) : Url → List ProxyRes → Option (List (Nat × String × Url))
  | _, [] => some []
  | current, proxyRes :: rest =>
    if isFollowedStatus proxyRes.statusCode then
      match resolveLocation lib current proxyRes with
      | none => none
      | some (locationHeader, parsed) =>
        (chainTargets lib parsed rest).map (fun l => (proxyRes.statusCode, locationHeader, parsed) :: l)
    else none

/-- The `X-CORS-Redirect-<n>` headers of the hops `hops`, numbered from `first`. -/
def redirectHeaders : Nat → List (Nat × String × Url) → Obj
  | _, [] => []
  | first, (statusCode, locationHeader, _) :: rest =>
    ("X-CORS-Redirect-" ++ toString first, toString statusCode ++ " " ++ locationHeader) ::
      redirectHeaders (first + 1) rest

/-- The target after the hops `hops`, starting from `start`. -/
def lastTarget : Url → List (Nat × String × Url) → Url
  | start, [] => start
  | _, (_, _, u) :: rest => lastTarget u rest

/-- A header name is `X-CORS-Redirect-<n>`: names are compared without regard to letter case, and
Node hands the names of upstream headers over in lower case. -/
def isRedirectHeader (name : String) (n : Nat) : Bool :=
  lowerCase name == "x-cors-redirect-" ++ toString n

/-- The call `proxy.web` re-issues the request as `GET` against `target`: the method is `GET`
with a `content-length` of `0` and no `content-type`, the state holds `target`, the option
`headers` sets `host` to the target's host, and the call goes to the target with its path as the
request URL, or, when the proxy-selection function `getProxyForUrl` names a proxy for the target,
to that proxy with the target's href as the request URL. -/
def ProxyCall.reissues (call : ProxyCall) (getProxyForUrl : String → String) (target : Url) :
    Prop :=
  call.req.method = "GET" ∧
    Obj.get call.req.headers "content-length" = some "0" ∧
    Obj.get call.req.headers "content-type" = none ∧
    call.req.corsProksyRequestState.location = some target ∧
    call.headers = [("host", target.host)] ∧
    (if getProxyForUrl target.href = "" then
      call.target = Target.location target ∧ call.toProxy = false ∧ call.req.url = target.path
    else
      call.target = Target.through (getProxyForUrl target.href) ∧ call.toProxy = true ∧
        call.req.url = target.href)

/-- The names that a comma-separated header value lists. -/
def listedNames (value : String) : List String :=
  (value.data.splitOn ',').map String.mk

/-- The request states that the engine reaches from `start`: `Reach lib start req awaiting` holds
when `req` is the request object after some upstream responses were given to `onProxyResponse`,
each of them the response to the request that the handler or the previous call had issued.
`awaiting` tells whether a response is still to come: no call was made yet, or the last call
returned `false` and re-issued the request. -/
inductive Reach (lib : NodeLib) (start : Request) : Request → Bool → Prop where
  | initial : Reach lib start start true
  | response (req : Request) (res : Response) (proxyRes : ProxyRes) (step : Step) :
      Reach lib start req true → onProxyResponse lib proxyRes req res = some step →
      Reach lib start step.req (!step.result)

/-! ## A reference instance of the library -/

/-- The characters of a URL scheme. -/
def isSchemeChar (c : Char) : Bool :=
  c.isAlphanum || c == '.' || c == '+' || c == '-'

/-- Split a text at the first character that satisfies `p`. -/
def splitAt (p : Char → Bool) (cs : List Char) : List Char × List Char :=
  (cs.takeWhile (fun c => !p c), cs.dropWhile (fun c => !p c))

/-- The host and the port of `host[:port]`, where the port is a run of digits at the end. -/
def splitPort (cs : List Char) : List Char × Option (List Char) :=
  let digits := (cs.reverse.takeWhile Char.isDigit).reverse
  let before := (cs.reverse.dropWhile Char.isDigit).reverse
  match before.getLast? with
  | some ':' => (before.dropLast, if digits.isEmpty then none else some digits)
  | _ => (cs, none)

/-- The part of `host` after the last `@`, if there is one. -/
def dropAuth (cs : List Char) : List Char :=
  (cs.reverse.takeWhile (fun c => !(c == '@'))).reverse

/-- The part of `host` up to and including the last `@`, if there is one. -/
def authPart (cs : List Char) : List Char :=
  (cs.reverse.dropWhile (fun c => !(c == '@'))).reverse

/-- A reference `url.parse` for texts of the plain form `scheme://[auth@]host[:port][/path][?query][#hash]`;
a text without a scheme or without `//` gets no host. -/
def refParse (u : String) : Url :=
  let scheme := u.data.takeWhile isSchemeChar
  match u.data.dropWhile isSchemeChar with
  | ':' :: '/' :: '/' :: rest =>
    if scheme.isEmpty then
      { protocol := "", host := "", hostname := "", port := none, path := u, href := u }
    else
      let protocol := String.mk (scheme.map Char.toLower ++ [':'])
      let authority := (splitAt (fun c => c == '/' || c == '?' || c == '#') rest).1
      let tail := (splitAt (fun c => c == '/' || c == '?' || c == '#') rest).2
      let hostPort := splitPort (dropAuth authority)
      let hostname := String.mk (hostPort.1.map Char.toLower)
      let port := hostPort.2.map String.mk
      let host := match port with
        | some p => hostname ++ ":" ++ p
        | none => hostname
      let beforeHash := (splitAt (fun c => c == '#') tail).1
      let hash := (splitAt (fun c => c == '#') tail).2
      let path := match beforeHash with
        | '/' :: _ => String.mk beforeHash
        | _ => "/" ++ String.mk beforeHash
      { protocol := protocol, host := host, hostname := hostname, port := port, path := path,
        href := protocol ++ "//" ++ String.mk (authPart authority) ++ host ++ path ++ String.mk hash }
  | _ => { protocol := "", host := "", hostname := "", port := none, path := u, href := u }

/-- A reference `url.resolve` for an absolute URL, for a path that starts with a slash, and for
the empty text, which resolves to the base. -/
def refResolve (base relative : String) : String :=
  if (matchScheme relative.data).isSome then (refParse relative).href
  else
    match relative.data with
    | [] => (refParse base).href
    | '/' :: '/' :: _ => (refParse ((refParse base).protocol ++ relative)).href
    | '/' :: _ => (refParse ((refParse base).protocol ++ "//" ++ (refParse base).host ++ relative)).href
    | _ => (refParse ((refParse base).protocol ++ "//" ++ (refParse base).host ++ "/" ++ relative)).href

/-- One part of a dotted IPv4 address: a number from 0 to 255 without a leading zero. -/
def isIPv4Part (cs : List Char) : Bool :=
  match decimalValue cs with
  | some n => decide (n ≤ 255) && (cs.length == 1 || !(cs.head? == some '0')) && cs.length ≤ 3
  | none => false

/-- A reference `net.isIPv4`: four such parts joined by dots. -/
def refIsIPv4 (s : String) : Bool :=
  let parts := s.data.splitOn '.'
  parts.length == 4 && parts.all isIPv4Part

/-- A reference `net.isIPv6` for the full form: eight groups of one to four hexadecimal digits. -/
def refIsIPv6 (s : String) : Bool :=
  let parts := s.data.splitOn ':'
  parts.length == 8 &&
    parts.all (fun p => decide (1 ≤ p.length) && decide (p.length ≤ 4) &&
      p.all (fun c => c.isDigit || ('a' ≤ c && c ≤ 'f') || ('A' ≤ c && c ≤ 'F')))

/-- The reference library. -/
def refLib : NodeLib :=
  { urlParse := refParse, urlResolve := refResolve, isIPv4 := refIsIPv4, isIPv6 := refIsIPv6 }

/-- What the theorems about schemes assume of `url.parse`: a text that starts with `http://` or
`https://`, in any letter case, is given that scheme in lower case as its protocol. -/
def ParsesScheme (urlParse : String → Url) : Prop :=
  ∀ (u : String) (p r : List Char), matchScheme u.data = some (p, '/' :: '/' :: r) →
    (urlParse u).protocol = String.mk (p.map Char.toLower)

/-- The keys that `withCORS` may write. -/
def corsKeys : List String :=
  ["access-control-allow-origin", "access-control-max-age", "access-control-allow-methods",
    "access-control-allow-headers", "access-control-expose-headers"]

/-! ## Concrete requests -/

/-- A request state as `getHandler` leaves it for the target `href`, under the default options and
behind the proxy `http://proxy.test`. -/
def stateFor (href : String) (maxRedirects : Nat) : RequestState :=
  { getProxyForUrl := fun _ => ""
    maxRedirects := maxRedirects
    corsMaxAge := 0
    location := some (refParse href)
    proxyBaseUrl := some "http://proxy.test"
    redirectCount_ := none }

/-- A client request for `url` with the given method and headers, with the state of `stateFor`. -/
def requestFor (method url : String) (headers : Obj) (href : String) (maxRedirects : Nat) : Request :=
  { method := method, url := url, headers := headers, encrypted := false,
    corsProksyRequestState := stateFor href maxRedirects }

/-- A client request as Node hands it to the handler: no state is attached yet. -/
def incoming (method url : String) (headers : Obj) : Request :=
  { method := method, url := url, headers := headers, encrypted := false,
    corsProksyRequestState := (Config.default (fun _ => "")).initialState }

/-! ## Header maps -/

theorem Obj.get_set_self (o : Obj) (k v : String) : Obj.get (Obj.set o k v) k = some v := by
  induction o with
  | nil => simp [Obj.set, Obj.get, List.lookup]
  | cons p t ih =>
    obtain ⟨k', v'⟩ := p
    by_cases h : k' = k
    · subst h; simp [Obj.set, Obj.get, List.lookup]
    · have h' : (k == k') = false := by simpa using fun e => h e.symm
      simp only [Obj.set, if_neg h, Obj.get, List.lookup, h']
      exact ih

theorem Obj.get_set_ne (o : Obj) (k v k' : String) (h : k ≠ k') :
    Obj.get (Obj.set o k v) k' = Obj.get o k' := by
  induction o with
  | nil =>
    have h' : (k' == k) = false := by simpa using fun e => h e.symm
    simp [Obj.set, Obj.get, List.lookup, h']
  | cons p t ih =>
    obtain ⟨k1, v1⟩ := p
    by_cases h1 : k1 = k
    · subst h1
      have h' : (k' == k1) = false := by simpa using fun e => h e.symm
      simp [Obj.set, Obj.get, List.lookup, h']
    · simp only [Obj.set, if_neg h1, Obj.get, List.lookup]
      cases hk : k' == k1
      · exact ih
      · rfl

theorem Obj.get_delete_self (o : Obj) (k : String) : Obj.get (Obj.delete o k) k = none := by
  induction o with
  | nil => rfl
  | cons p t ih =>
    obtain ⟨k1, v1⟩ := p
    by_cases h1 : k1 = k
    · subst h1; simpa [Obj.delete, Obj.get, List.filter] using ih
    · have h' : (k == k1) = false := by simpa using fun e => h1 e.symm
      have h'' : (k1 == k) = false := by simpa using h1
      simp only [Obj.delete, List.filter, h'', Bool.not_false, Obj.get, List.lookup, h']
      exact ih

theorem Obj.get_delete_ne (o : Obj) (k k' : String) (h : k ≠ k') :
    Obj.get (Obj.delete o k) k' = Obj.get o k' := by
  induction o with
  | nil => rfl
  | cons p t ih =>
    obtain ⟨k1, v1⟩ := p
    by_cases h1 : k1 = k
    · subst h1
      have h' : (k' == k1) = false := by simpa using fun e => h e.symm
      simp only [Obj.delete, List.filter, beq_self_eq_true, Bool.not_true, Obj.get, List.lookup, h']
      exact ih
    · have h'' : (k1 == k) = false := by simpa using h1
      simp only [Obj.delete, List.filter, h'', Bool.not_false, Obj.get, List.lookup]
      cases hk : k' == k1
      · exact ih
      · rfl


theorem Obj.has_eq_false_iff (o : Obj) (k : String) : Obj.has o k = false ↔ Obj.get o k = none := by
  simp [Obj.has, Obj.get]


theorem withCORS_get_other (headers : Obj) (request : Request) (k : String) (hk : k ∉ corsKeys) :
    Obj.get (withCORS headers request).1 k = Obj.get headers k := by
  simp only [corsKeys, List.mem_cons, List.mem_singleton, not_or, List.mem_nil_iff,
    or_false] at hk
  obtain ⟨h1, h2, h3, h4, h5⟩ := hk
  simp only [withCORS]
  rw [Obj.get_set_ne _ _ _ _ (Ne.symm h5)]
  split_ifs <;>
    simp only [Obj.get_set_ne _ _ _ _ (Ne.symm h1), Obj.get_set_ne _ _ _ _ (Ne.symm h2),
      Obj.get_set_ne _ _ _ _ (Ne.symm h3), Obj.get_set_ne _ _ _ _ (Ne.symm h4)]

theorem withCORS_allow_origin (headers : Obj) (request : Request) :
    Obj.get (withCORS headers request).1 "access-control-allow-origin" = some "*" := by
  simp only [withCORS]
  rw [Obj.get_set_ne _ _ _ _ (by decide)]
  split_ifs <;>
    simp only [Obj.get_set_ne _ "access-control-max-age" _ "access-control-allow-origin" (by decide),
      Obj.get_set_ne _ "access-control-allow-methods" _ "access-control-allow-origin" (by decide),
      Obj.get_set_ne _ "access-control-allow-headers" _ "access-control-allow-origin" (by decide),
      Obj.get_set_self]

theorem handOn_result (location : Url) (req : Request) (res : Response) (proxyRes : ProxyRes) :
    (handOn location req res proxyRes).result = true := rfl

theorem handOn_no_cookie (location : Url) (req : Request) (res : Response) (proxyRes : ProxyRes) :
    Obj.get (handOn location req res proxyRes).proxyRes.headers "set-cookie" = none ∧
      Obj.get (handOn location req res proxyRes).proxyRes.headers "set-cookie2" = none := by
  constructor
  · simp only [handOn]
    rw [withCORS_get_other _ _ _ (by decide), Obj.get_set_ne _ _ _ _ (by decide),
      Obj.get_delete_ne _ _ _ (by decide), Obj.get_delete_self]
  · simp only [handOn]
    rw [withCORS_get_other _ _ _ (by decide), Obj.get_set_ne _ _ _ _ (by decide),
      Obj.get_delete_self]

/-- Every call of `onProxyResponse` that returns `true` ends in lines 179 to 185. -/
theorem onProxyResponse_true (lib : NodeLib) (proxyRes : ProxyRes) (req : Request) (res : Response)
    (step : Step) (h : onProxyResponse lib proxyRes req res = some step)
    (ht : step.result = true) :
    ∃ location req' res' proxyRes', step = handOn location req' res' proxyRes' := by
  unfold onProxyResponse at h
  simp only at h
  split at h
  · exact absurd h (by simp)
  · rename_i location _
    split_ifs at h
    all_goals first
      | exact ⟨_, _, _, _, (Option.some.inj h).symm⟩
      | (split at h <;> first
          | exact ⟨_, _, _, _, (Option.some.inj h).symm⟩
          | (split at h
             · exact absurd h (by simp)
             · cases Option.some.inj h; exact absurd ht (by simp)))


/-! ## Cookies are stripped (C3) -/

/-- C3: whenever `onProxyResponse` returns `true`, whatever the status code and the headers of the
upstream response and whatever the request state, the header map it leaves on the upstream
response has neither the key `set-cookie` nor the key `set-cookie2`. -/
theorem onProxyResponse_strips_cookies (lib : NodeLib) (proxyRes : ProxyRes) (req : Request)
    (res : Response) (step : Step) (h : onProxyResponse lib proxyRes req res = some step)
    (ht : step.result = true) :
    Obj.has step.proxyRes.headers "set-cookie" = false ∧
      Obj.has step.proxyRes.headers "set-cookie2" = false := by
  obtain ⟨location, req', res', proxyRes', rfl⟩ := onProxyResponse_true lib proxyRes req res step h ht
  rw [Obj.has_eq_false_iff, Obj.has_eq_false_iff]
  exact handOn_no_cookie location req' res' proxyRes'

/-- C3 at an upstream response that sets both cookie headers. -/
theorem onProxyResponse_strips_cookies_witness :
    ∃ step,
      onProxyResponse refLib
        { statusCode := 200, headers := [("set-cookie", "a=1"), ("set-cookie2", "b=2"), ("etag", "x")] }
        (requestFor "GET" "/" [("host", "proxy.test")] "http://example.com/" 5) { headers := [] }
        = some step ∧
      step.result = true ∧ Obj.get step.proxyRes.headers "etag" = some "x" ∧
      Obj.has step.proxyRes.headers "set-cookie" = false ∧
      Obj.has step.proxyRes.headers "set-cookie2" = false :=
  ⟨_, rfl, rfl, rfl,
    onProxyResponse_strips_cookies refLib
      { statusCode := 200, headers := [("set-cookie", "a=1"), ("set-cookie2", "b=2"), ("etag", "x")] }
      (requestFor "GET" "/" [("host", "proxy.test")] "http://example.com/" 5) { headers := [] } _ rfl rfl⟩

/-! ## The pre-flight reply (C4) -/

/-- C4: a request whose method is `OPTIONS` is answered with status 200, exactly the headers
`withCORS({}, req)` computes for the request with its fresh state, and an empty body, whatever the
URL, the headers and the configuration; no upstream call is made. -/
theorem getHandler_options (corsProksy : Config) (lib : NodeLib) (readFile : String → Option String)
    (help_text : Obj) (req : Request) (h : req.method = "OPTIONS") :
    (getHandler corsProksy lib readFile help_text req).1 =
        Outcome.reply (Reply.mk 200 none
          (withCORS [] { req with corsProksyRequestState := corsProksy.initialState }).1 "") ∧
      (getHandler corsProksy lib readFile help_text req).1.call = none := by
  have hm : (withCORS [] { req with corsProksyRequestState := corsProksy.initialState }).2.method
      = "OPTIONS" := h
  simp only [getHandler, hm, if_true, Outcome.call, and_self]

/-- C4 at a pre-flight request for a host that the later checks would reject, under a
configuration with a hook that takes every request and a required header that is absent. -/
theorem getHandler_options_witness :
    (incoming "OPTIONS" "/favicon.ico" [("access-control-request-method", "PUT")]).method = "OPTIONS" ∧
      (getHandler
          { Config.default (fun _ => "") with
            handleInitialRequest := some (fun _ _ => true)
            requireHeader := RequireHeaderOption.name "x-requested-with"
            corsMaxAge := 600 }
          refLib (fun _ => none) []
          (incoming "OPTIONS" "/favicon.ico" [("access-control-request-method", "PUT")])).1.reply?
        = some (Reply.mk 200 none
            [("access-control-allow-origin", "*"), ("access-control-max-age", "600"),
              ("access-control-allow-methods", "PUT"),
              ("access-control-expose-headers",
                "access-control-allow-origin,access-control-max-age,access-control-allow-methods")]
            "") :=
  ⟨rfl, by
    rw [(getHandler_options _ refLib (fun _ => none) []
      (incoming "OPTIONS" "/favicon.ico" [("access-control-request-method", "PUT")]) rfl).1]
    rfl⟩

/-! ## `Access-Control-Allow-Origin` (C5) -/

theorem showUsage_headers (readFile : String → Option String) (help_text : Obj) (help_file : String)
    (headers : Obj) (r : Reply)
    (h : (showUsage readFile help_text help_file headers).1 = Outcome.reply r) :
    r.headers =
      Obj.set headers "content-type" (if isHtmlFile help_file then "text/html" else "text/plain") := by
  unfold showUsage at h
  simp only at h
  generalize (if isHtmlFile help_file then "text/html" else "text/plain" : String) = ct at h ⊢
  repeat' split at h
  all_goals first
    | (have hr := Outcome.reply.inj h; subst hr; rfl)
    | (simp at h)

theorem showUsage_call (readFile : String → Option String) (help_text : Obj) (help_file : String)
    (headers : Obj) : (showUsage readFile help_text help_file headers).1.call = none := by
  unfold showUsage
  simp only
  repeat' split
  all_goals rfl

theorem getHandler_reply_allow_origin (corsProksy : Config) (lib : NodeLib)
    (readFile : String → Option String) (help_text : Obj) (req : Request) (r : Reply)
    (h : (getHandler corsProksy lib readFile help_text req).1 = Outcome.reply r) :
    r = Reply.mk 200 none [("Content-Type", "text/plain")] "no" ∨
      Obj.get r.headers "access-control-allow-origin" = some "*" := by
  have hc := withCORS_allow_origin [] { req with corsProksyRequestState := corsProksy.initialState }
  unfold getHandler at h
  simp only at h
  repeat' split at h
  all_goals first
    | (have hr := Outcome.reply.inj h; subst hr; exact Or.inr hc)
    | (have hr := Outcome.reply.inj h; subst hr; exact Or.inl rfl)
    | (right
       rw [showUsage_headers _ _ _ _ _ h, Obj.get_set_ne _ _ _ _ (by decide)]; exact hc)
    | (have hr := Outcome.reply.inj h; subst hr; right
       rw [Obj.get_set_ne _ _ _ _ (by decide), Obj.get_set_ne _ _ _ _ (by decide),
         Obj.get_set_ne _ _ _ _ (by decide)]
       exact hc)
    | (simp at h)


/-- C5, as stated, fails: the reply to the self-test host `iscorsneeded` is written with the single
header `Content-Type`, so it carries no `Access-Control-Allow-Origin`. -/
theorem selfTest_reply_lacks_allow_origin :
    ∃ r, (getHandler (Config.default (fun _ => "")) refLib (fun _ => none) []
          (incoming "GET" "/iscorsneeded" [("host", "proxy.test")])).1 = Outcome.reply r ∧
      r.statusCode = 200 ∧ r.body = "no" ∧
      ∀ p ∈ r.headers, lowerCase p.1 ≠ "access-control-allow-origin" :=
  ⟨_, rfl, rfl, rfl, by decide⟩

/-- C5, amended: every reply that the request handler writes, except the self-test reply
(status 200, the single header `Content-Type`, body `no`), has the header
`access-control-allow-origin` with value `*`; so has every upstream response that
`onProxyResponse` hands on; and the proxy-error response has `Access-Control-Allow-Origin: *`. -/
theorem allow_origin_on_every_other_response :
    (∀ (corsProksy : Config) (lib : NodeLib) (readFile : String → Option String) (help_text : Obj)
        (req : Request) (r : Reply),
        (getHandler corsProksy lib readFile help_text req).1 = Outcome.reply r →
        r = Reply.mk 200 none [("Content-Type", "text/plain")] "no" ∨
          Obj.get r.headers "access-control-allow-origin" = some "*") ∧
    (∀ (lib : NodeLib) (proxyRes : ProxyRes) (req : Request) (res : Response) (step : Step),
        onProxyResponse lib proxyRes req res = some step → step.result = true →
        Obj.get step.proxyRes.headers "access-control-allow-origin" = some "*") ∧
    (∀ (headersSent : Bool) (err : String) (r : Reply), onProxyError headersSent err = some r →
        r.statusCode = 404 ∧ Obj.get r.headers "Access-Control-Allow-Origin" = some "*") := by
  refine ⟨getHandler_reply_allow_origin, ?_, ?_⟩
  · intro lib proxyRes req res step h ht
    obtain ⟨location, req', res', proxyRes', rfl⟩ := onProxyResponse_true lib proxyRes req res step h ht
    exact withCORS_allow_origin _ _
  · intro headersSent err r h
    unfold onProxyError at h
    split_ifs at h
    cases h
    exact ⟨rfl, rfl⟩

/-- C5, amended, at the reply to `/favicon.ico` (404), at an upstream response handed on, and at
the proxy-error response. -/
theorem allow_origin_on_every_other_response_witness :
    (∃ r, (getHandler (Config.default (fun _ => "")) refLib (fun _ => none) []
          (incoming "GET" "/favicon.ico" [("host", "proxy.test")])).1 = Outcome.reply r ∧
        r.statusCode = 404 ∧ Obj.get r.headers "access-control-allow-origin" = some "*") ∧
    (∃ step, onProxyResponse refLib { statusCode := 200, headers := [("etag", "x")] }
          (requestFor "GET" "/" [("host", "proxy.test")] "http://example.com/" 5) { headers := [] }
          = some step ∧
        Obj.get step.proxyRes.headers "access-control-allow-origin" = some "*") ∧
    (∃ r, onProxyError false "ECONNREFUSED" = some r ∧
        Obj.get r.headers "Access-Control-Allow-Origin" = some "*") :=
  ⟨⟨_, rfl, rfl,
      (allow_origin_on_every_other_response.1 (Config.default (fun _ => "")) refLib (fun _ => none) []
        (incoming "GET" "/favicon.ico" [("host", "proxy.test")]) _ rfl).resolve_left (by decide)⟩,
    ⟨_, rfl, allow_origin_on_every_other_response.2.1 refLib
      { statusCode := 200, headers := [("etag", "x")] }
      (requestFor "GET" "/" [("host", "proxy.test")] "http://example.com/" 5) { headers := [] } _ rfl rfl⟩,
    ⟨_, rfl, (allow_origin_on_every_other_response.2.2 false "ECONNREFUSED" _ rfl).2⟩⟩

/-! ## Decimal numbers in header names -/

theorem digitChar_value (m : Nat) (h : m < 10) : (Nat.digitChar m).toNat - 48 = m := by
  interval_cases m <;> rfl

theorem toDigitsCore_value (fuel : Nat) : ∀ (n : Nat) (ds : List Char), n < fuel →
    ∃ pre, Nat.toDigitsCore 10 fuel n ds = pre ++ ds ∧
      ∀ acc, digitsValue acc pre = acc * 10 ^ pre.length + n := by
  induction fuel with
  | zero => intro n ds h; exact absurd h (Nat.not_lt_zero _)
  | succ fuel ih =>
    intro n ds h
    rw [Nat.toDigitsCore]
    by_cases h0 : n / 10 = 0
    · rw [if_pos h0]
      refine ⟨[Nat.digitChar (n % 10)], rfl, ?_⟩
      intro acc
      have hn : n % 10 = n := Nat.mod_eq_of_lt (by omega)
      simp only [digitsValue, List.foldl, List.length_singleton, pow_one]
      rw [digitChar_value _ (Nat.mod_lt _ (by decide)), hn]
      omega
    · rw [if_neg h0]
      obtain ⟨pre, hpre, hval⟩ := ih (n / 10) (Nat.digitChar (n % 10) :: ds) (by omega)
      refine ⟨pre ++ [Nat.digitChar (n % 10)], by rw [hpre]; simp, ?_⟩
      intro acc
      have := hval acc
      simp only [digitsValue] at this ⊢
      rw [List.foldl_append, this]
      simp only [List.foldl, List.length_append, List.length_singleton]
      rw [digitChar_value _ (Nat.mod_lt _ (by decide)), pow_succ]
      have := Nat.div_add_mod n 10
      nlinarith [Nat.div_add_mod n 10]

theorem toString_nat_injective {a b : Nat} (h : toString a = toString b) : a = b := by
  have hd : Nat.toDigits 10 a = Nat.toDigits 10 b := by
    have := congrArg String.data h
    exact this
  obtain ⟨pa, hpa, hva⟩ := toDigitsCore_value (a + 1) a [] (Nat.lt_succ_self _)
  obtain ⟨pb, hpb, hvb⟩ := toDigitsCore_value (b + 1) b [] (Nat.lt_succ_self _)
  rw [Nat.toDigits, Nat.toDigits, hpa, hpb] at hd
  simp only [List.append_nil] at hd
  have h1 := hva 0
  have h2 := hvb 0
  rw [hd] at h1
  omega

theorem redirect_name_injective {a b : Nat}
    (h : "X-CORS-Redirect-" ++ toString a = "X-CORS-Redirect-" ++ toString b) : a = b := by
  apply toString_nat_injective
  have := congrArg String.data h
  simp only [String.data_append, List.append_cancel_left_eq] at this
  exact String.ext this

theorem redirect_name_ne_request_url (a : Nat) :
    "X-CORS-Redirect-" ++ toString a ≠ "x-request-url" := by
  intro h
  have := congrArg String.data h
  simp only [String.data_append] at this
  have h0 := congrArg List.head? this
  simp at h0


/-! ## Single calls of `onProxyResponse` -/
theorem isRedirectStatus_of_followed {n : Nat} (h : isFollowedStatus n = true) :
    isRedirectStatus n = true := by
  simp only [isFollowedStatus, Bool.or_eq_true, beq_iff_eq] at h
  simp only [isRedirectStatus, Bool.or_eq_true, beq_iff_eq]
  tauto

theorem nextRedirectCount_eq (c : Option Nat) : nextRedirectCount c = c.getD 0 + 1 := by
  cases c <;> rfl

theorem handOn_get_other (location : Url) (req : Request) (res : Response) (proxyRes : ProxyRes)
    (k : String) (hk : k ∉ corsKeys) (h1 : k ≠ "x-final-url") (h2 : k ≠ "set-cookie")
    (h3 : k ≠ "set-cookie2") :
    Obj.get (handOn location req res proxyRes).proxyRes.headers k = Obj.get proxyRes.headers k := by
  simp only [handOn]
  rw [withCORS_get_other _ _ _ hk, Obj.get_set_ne _ _ _ _ (Ne.symm h1),
    Obj.get_delete_ne _ _ _ (Ne.symm h3), Obj.get_delete_ne _ _ _ (Ne.symm h2)]

/-- The call of `onProxyResponse` on a redirect that is not followed: the status is 307 or 308, or
the count after the increment is above the maximum. -/
theorem onProxyResponse_not_followed (lib : NodeLib) (proxyRes : ProxyRes) (req : Request)
    (res : Response) (location : Url) (L : String) (parsed : Url)
    (hloc : req.corsProksyRequestState.location = some location)
    (hres : resolveLocation lib location proxyRes = some (L, parsed))
    (hcase : (isFollowedStatus proxyRes.statusCode = true ∧
        req.corsProksyRequestState.maxRedirects < nextRedirectCount req.corsProksyRequestState.redirectCount_) ∨
      proxyRes.statusCode = 307 ∨ proxyRes.statusCode = 308) :
    ∃ req' res', onProxyResponse lib proxyRes req res =
      some (handOn location req' res'
        (ProxyRes.mk proxyRes.statusCode (Obj.set proxyRes.headers "location"
            (req.corsProksyRequestState.proxyBaseUrl.getD "undefined" ++ "/" ++ L)))) ∧
      req'.method = req.method ∧
      req'.corsProksyRequestState.location = some location := by
  have hred : isRedirectStatus proxyRes.statusCode = true := by
    rcases hcase with h | h | h
    · exact isRedirectStatus_of_followed h.1
    · rw [h]; rfl
    · rw [h]; rfl
  unfold onProxyResponse
  simp only [hloc, hred, if_true, hres]
  rcases hcase with h | h | h
  · simp only [h.1, if_true, not_le.mpr h.2, if_false]
    exact ⟨_, _, rfl, rfl, rfl⟩
  · have : isFollowedStatus proxyRes.statusCode = false := by rw [h]; rfl
    simp only [this, Bool.false_eq_true, if_false]
    exact ⟨_, _, rfl, rfl, hloc⟩
  · have : isFollowedStatus proxyRes.statusCode = false := by rw [h]; rfl
    simp only [this, Bool.false_eq_true, if_false]
    exact ⟨_, _, rfl, rfl, hloc⟩

theorem handOn_fields (location : Url) (req : Request) (res : Response) (proxyRes : ProxyRes) :
    (handOn location req res proxyRes).call = none ∧
      (handOn location req res proxyRes).req.method = req.method ∧
      (handOn location req res proxyRes).req.corsProksyRequestState = req.corsProksyRequestState ∧
      (handOn location req res proxyRes).res = res :=
  ⟨rfl, rfl, rfl, rfl⟩


theorem Obj.set_of_not_mem (o : Obj) (k v : String) (h : k ∉ o.map Prod.fst) :
    Obj.set o k v = o ++ [(k, v)] := by
  induction o with
  | nil => rfl
  | cons p t ih =>
    obtain ⟨k1, v1⟩ := p
    simp only [List.map_cons, List.mem_cons, not_or] at h
    simp only [Obj.set, if_neg (Ne.symm h.1), ih h.2, List.cons_append]

theorem Obj.mem_keys_set (o : Obj) (k v k' : String) :
    k' ∈ (Obj.set o k v).map Prod.fst ↔ k' ∈ o.map Prod.fst ∨ k' = k := by
  induction o with
  | nil => simp [Obj.set]
  | cons p t ih =>
    obtain ⟨k1, v1⟩ := p
    by_cases h1 : k1 = k
    · subst h1
      simp only [Obj.set, if_true, List.map_cons, List.mem_cons]
      tauto
    · simp only [Obj.set, if_neg h1, List.map_cons, List.mem_cons, ih]
      tauto

theorem noRedirectYet_eq (c : Option Nat) : noRedirectYet c = decide (c.getD 0 = 0) := by
  cases c with
  | none => rfl
  | some n => cases n <;> rfl

/-- The headers on `res` after the first lines of `onProxyResponse`. -/
theorem firstHeaders (res : Response) (req : Request) (href : String) :
    (if noRedirectYet req.corsProksyRequestState.redirectCount_ = true then
        res.setHeader "x-request-url" href else res).headers =
      if req.corsProksyRequestState.redirectCount_.getD 0 = 0 then
        Obj.set res.headers "x-request-url" href else res.headers := by
  rw [noRedirectYet_eq]
  by_cases h : req.corsProksyRequestState.redirectCount_.getD 0 = 0
  · simp [h, Response.setHeader]
  · simp [h]

/-- The call of `onProxyResponse` on a redirect that is followed. -/
theorem onProxyResponse_followed (lib : NodeLib) (proxyRes : ProxyRes) (req : Request)
    (res : Response) (location : Url) (L : String) (parsed : Url)
    (hloc : req.corsProksyRequestState.location = some location)
    (hres : resolveLocation lib location proxyRes = some (L, parsed))
    (hst : isFollowedStatus proxyRes.statusCode = true)
    (hle : nextRedirectCount req.corsProksyRequestState.redirectCount_ ≤
      req.corsProksyRequestState.maxRedirects) :
    ∃ step call, onProxyResponse lib proxyRes req res = some step ∧
      step.result = false ∧ step.call = some call ∧
      call.reissues req.corsProksyRequestState.getProxyForUrl parsed ∧
      step.req.corsProksyRequestState.getProxyForUrl = req.corsProksyRequestState.getProxyForUrl ∧
      step.req.method = "GET" ∧
      step.req.corsProksyRequestState.location = some parsed ∧
      step.req.corsProksyRequestState.redirectCount_ =
        some (nextRedirectCount req.corsProksyRequestState.redirectCount_) ∧
      step.req.corsProksyRequestState.maxRedirects = req.corsProksyRequestState.maxRedirects ∧
      step.res.headers =
        Obj.set (if req.corsProksyRequestState.redirectCount_.getD 0 = 0 then
            Obj.set res.headers "x-request-url" location.href else res.headers)
          ("X-CORS-Redirect-" ++ toString (nextRedirectCount req.corsProksyRequestState.redirectCount_))
          (toString proxyRes.statusCode ++ " " ++ L) := by
  have hcl : Obj.get (Obj.delete (Obj.set req.headers "content-length" "0") "content-type")
      "content-length" = some "0" := by
    rw [Obj.get_delete_ne _ _ _ (by decide), Obj.get_set_self]
  have hct : Obj.get (Obj.delete (Obj.set req.headers "content-length" "0") "content-type")
      "content-type" = none := Obj.get_delete_self _ _
  unfold onProxyResponse
  simp only [hloc, isRedirectStatus_of_followed hst, if_true, hres, hst, hle, proxyRequest]
  rw [← firstHeaders]
  by_cases hp : req.corsProksyRequestState.getProxyForUrl parsed.href = ""
  · simp only [hp, if_true]
    refine ⟨_, _, rfl, rfl, rfl, ?_, rfl, rfl, rfl, rfl, rfl, rfl⟩
    unfold ProxyCall.reissues
    rw [if_pos hp]
    exact ⟨rfl, hcl, hct, rfl, rfl, rfl, rfl, rfl⟩
  · simp only [hp, if_false]
    refine ⟨_, _, rfl, rfl, rfl, ?_, rfl, rfl, rfl, rfl, rfl, rfl⟩
    unfold ProxyCall.reissues
    rw [if_neg hp]
    exact ⟨rfl, hcl, hct, rfl, rfl, rfl, rfl, rfl⟩

/-- The call of `onProxyResponse` on a response that is not a redirect. -/
theorem onProxyResponse_plain (lib : NodeLib) (proxyRes : ProxyRes) (req : Request)
    (res : Response) (location : Url)
    (hloc : req.corsProksyRequestState.location = some location)
    (hst : isRedirectStatus proxyRes.statusCode = false) :
    ∃ res', onProxyResponse lib proxyRes req res = some (handOn location req res' proxyRes) ∧
      res'.headers = if req.corsProksyRequestState.redirectCount_.getD 0 = 0 then
        Obj.set res.headers "x-request-url" location.href else res.headers := by
  unfold onProxyResponse
  simp only [hloc, hst, Bool.false_eq_true, if_false]
  exact ⟨_, rfl, firstHeaders res req location.href⟩


theorem handOn_final_url (location : Url) (req : Request) (res : Response) (proxyRes : ProxyRes) :
    Obj.get (handOn location req res proxyRes).proxyRes.headers "x-final-url" = some location.href := by
  simp only [handOn]
  rw [withCORS_get_other _ _ _ (by decide), Obj.get_set_self]

/-- The engine on a chain of followed redirects and a last response that is not a redirect, from
any count `c` reached so far. -/
theorem feed_chain (lib : NodeLib) (final : ProxyRes) (getProxyForUrl : String → String)
    (hfinal : isRedirectStatus final.statusCode = false) :
    ∀ (hops : List ProxyRes) (req : Request) (res : Response) (location : Url)
      (ts : List (Nat × String × Url)) (c : Nat),
      req.corsProksyRequestState.location = some location →
      req.corsProksyRequestState.getProxyForUrl = getProxyForUrl →
      req.corsProksyRequestState.redirectCount_.getD 0 = c →
      c + hops.length ≤ req.corsProksyRequestState.maxRedirects →
      chainTargets lib location hops = some ts →
      (∀ j, c < j → "X-CORS-Redirect-" ++ toString j ∉ res.headers.map Prod.fst) →
      ∃ t, feed lib (hops ++ [final]) req res = some t ∧
        t.results = List.replicate hops.length false ++ [true] ∧
        List.Forall₂ (fun call hop => call.reissues getProxyForUrl hop.2.2) t.calls ts ∧
        t.res.headers =
          (if c = 0 then Obj.set res.headers "x-request-url" location.href else res.headers) ++
            redirectHeaders (c + 1) ts ∧
        ∃ req' res', t.handed = some (handOn (lastTarget location ts) req' res' final).proxyRes := by
  intro hops
  induction hops with
  | nil =>
    intro req res location ts c hloc _ hc _ hchain _
    obtain ⟨res', hstep, hres'⟩ := onProxyResponse_plain lib final req res location hloc hfinal
    simp only [chainTargets, Option.some.injEq] at hchain
    subst hchain
    rw [hc] at hres'
    simp only [List.nil_append, feed, hstep, Option.some.injEq, exists_eq_left',
      handOn_result, List.length_nil, List.replicate_zero,
      handOn_fields, Option.toList_none, redirectHeaders, List.append_nil,
      if_true, lastTarget, true_and]
    exact ⟨List.Forall₂.nil, hres', _, _, rfl⟩
  | cons proxyRes rest ih =>
    intro req res location ts c hloc hg hc hle hchain hfresh
    simp only [chainTargets] at hchain
    split_ifs at hchain with hst
    split at hchain
    · exact absurd hchain (by simp)
    · rename_i L parsed hres
      simp only [Option.map_eq_some'] at hchain
      obtain ⟨ts', hts', rfl⟩ := hchain
      have hnext : nextRedirectCount req.corsProksyRequestState.redirectCount_ = c + 1 := by
        rw [nextRedirectCount_eq, hc]
      simp only [List.length_cons] at hle
      obtain ⟨step, call, hstep, hr, hcall, hre, hsg, _, hsl, hsc, hsm, hsh⟩ :=
        onProxyResponse_followed lib proxyRes req res location L parsed hloc hres hst
          (by rw [hnext]; omega)
      rw [hnext, hc] at hsh
      rw [hnext] at hsc
      rw [hg] at hre hsg
      have hbase : ∀ j, c < j → "X-CORS-Redirect-" ++ toString j ∉
          (if c = 0 then Obj.set res.headers "x-request-url" location.href
            else res.headers).map Prod.fst := by
        intro j hj
        split_ifs
        · rw [Obj.mem_keys_set]
          exact fun h => h.elim (hfresh j hj) (redirect_name_ne_request_url j)
        · exact hfresh j hj
      rw [Obj.set_of_not_mem _ _ _ (hbase (c + 1) (Nat.lt_succ_self c))] at hsh
      obtain ⟨t, ht, hres, hcalls, hhead, req', res', hhanded⟩ :=
        ih step.req step.res parsed ts' (c + 1) hsl hsg (by rw [hsc]; rfl) (by rw [hsm]; omega) hts'
          (by
            intro j hj
            rw [hsh, List.map_append, List.mem_append]
            rintro (h | h)
            · exact hbase j (by omega) h
            · simp only [List.map_cons, List.map_nil, List.mem_singleton] at h
              have := redirect_name_injective h
              omega)
      have hfeed : feed lib ((proxyRes :: rest) ++ [final]) req res =
          some { results := step.result :: t.results, req := t.req, res := t.res,
                 handed := if step.result then some step.proxyRes else t.handed,
                 calls := step.call.toList ++ t.calls } := by
        show feed lib (proxyRes :: (rest ++ [final])) req res = _
        rw [feed, hstep]
        simp only [ht]
      refine ⟨_, hfeed, ?_, ?_, ?_, ?_⟩
      · simp only [hr, hres, List.length_cons, List.replicate_succ, List.cons_append]
      · simp only [hcall, Option.toList_some, List.singleton_append]
        exact List.Forall₂.cons hre hcalls
      · simp only [hhead, hsh, Nat.succ_ne_zero, if_false, redirectHeaders, List.append_assoc,
          List.singleton_append]
      · simp only [hr, Bool.false_eq_true, if_false, lastTarget]
        exact ⟨req', res', hhanded⟩

/-! ## Redirects that are not followed (C2) -/

/-- C2, as stated, fails: a 307 whose `Location` header is empty resolves against the target
`http://a.test/x` to that same URL, which `parseURL` accepts, yet line 141 takes the empty header
for absent, so the response is handed on with `location` left empty. -/
theorem empty_location_not_rewritten :
    refLib.urlResolve (refParse "http://a.test/x").href "" = "http://a.test/x" ∧
      parseURL refLib "http://a.test/x" = some (refParse "http://a.test/x") ∧
      ∃ step, onProxyResponse refLib { statusCode := 307, headers := [("location", "")] }
          (requestFor "POST" "/x" [("host", "proxy.test")] "http://a.test/x" 5) { headers := [] }
          = some step ∧
        step.result = true ∧ Obj.get step.proxyRes.headers "location" = some "" ∧
        Obj.get step.proxyRes.headers "location" ≠ some "http://proxy.test/http://a.test/x" :=
  ⟨rfl, rfl, _, rfl, rfl, rfl, by decide⟩

/-- C2, amended: a 301, 302 or 303 that arrives when the hop counter already equals
`maxRedirects`, and a 307 or 308 at any count, whose `Location` is not empty and resolves against
the current target to a URL `L` that `parseURL` accepts, is not followed: `onProxyResponse` returns
`true`, makes no call to `proxy.web`, leaves the request method and the current target as they
were, and the response it hands on has `location` equal to `proxyBaseUrl + "/" + L`. -/
theorem redirect_not_followed (lib : NodeLib) (proxyRes : ProxyRes) (req : Request)
    (res : Response) (location : Url) (proxyBaseUrl L : String) (parsed : Url)
    (hloc : req.corsProksyRequestState.location = some location)
    (hbase : req.corsProksyRequestState.proxyBaseUrl = some proxyBaseUrl)
    (hres : resolveLocation lib location proxyRes = some (L, parsed))
    (hcase : (isFollowedStatus proxyRes.statusCode = true ∧
        req.corsProksyRequestState.redirectCount_.getD 0 = req.corsProksyRequestState.maxRedirects) ∨
      proxyRes.statusCode = 307 ∨ proxyRes.statusCode = 308) :
    ∃ step, onProxyResponse lib proxyRes req res = some step ∧
      step.result = true ∧ step.call = none ∧ step.req.method = req.method ∧
      step.req.corsProksyRequestState.location = some location ∧
      Obj.get step.proxyRes.headers "location" = some (proxyBaseUrl ++ "/" ++ L) := by
  have hcase' : (isFollowedStatus proxyRes.statusCode = true ∧
        req.corsProksyRequestState.maxRedirects < nextRedirectCount req.corsProksyRequestState.redirectCount_) ∨
      proxyRes.statusCode = 307 ∨ proxyRes.statusCode = 308 := by
    rcases hcase with h | h
    · exact Or.inl ⟨h.1, by rw [nextRedirectCount_eq, h.2]; exact Nat.lt_succ_self _⟩
    · exact Or.inr h
  obtain ⟨req', res', h, hm, hl⟩ :=
    onProxyResponse_not_followed lib proxyRes req res location L parsed hloc hres hcase'
  refine ⟨_, h, rfl, rfl, hm, hl, ?_⟩
  rw [handOn_get_other _ _ _ _ _ (by decide) (by decide) (by decide) (by decide), hbase]
  exact Obj.get_set_self _ _ _


/-- C2, amended, at a 302 that arrives with `maxRedirects = 0`, for a `POST` to
`http://a.test/x`. -/
theorem redirect_not_followed_witness :
    ∃ step, onProxyResponse refLib { statusCode := 302, headers := [("location", "/login")] }
        (requestFor "POST" "/x" [("host", "proxy.test")] "http://a.test/x" 0) { headers := [] }
        = some step ∧
      step.result = true ∧ step.call = none ∧ step.req.method = "POST" ∧
      step.req.corsProksyRequestState.location = some (refParse "http://a.test/x") ∧
      Obj.get step.proxyRes.headers "location" = some "http://proxy.test/http://a.test/login" :=
  redirect_not_followed refLib { statusCode := 302, headers := [("location", "/login")] }
    (requestFor "POST" "/x" [("host", "proxy.test")] "http://a.test/x" 0) { headers := [] }
    (refParse "http://a.test/x") "http://proxy.test" "http://a.test/login"
    (refParse "http://a.test/login") rfl rfl rfl (Or.inl ⟨rfl, rfl⟩)

/-! ## Chains of followed redirects (C1) -/

/-- C1, as stated, fails: a last upstream response that itself has a header `x-cors-redirect-9`
is handed on with that header, so the client response carries an `X-CORS-Redirect` header whose
index is not one of the hops (here there is no hop at all). -/
theorem upstream_redirect_header_reaches_client :
    ∃ t h, feed refLib ([] ++ [{ statusCode := 200, headers := [("x-cors-redirect-9", "200 spoofed")] }])
        (requestFor "GET" "/" [("host", "proxy.test")] "http://a.test/x" 5) { headers := [] } = some t ∧
      t.results = [true] ∧ t.handed = some h ∧
      ∃ p ∈ h.headers, isRedirectHeader p.1 9 = true ∧ ¬ (1 ≤ 9 ∧ 9 ≤ 0) :=
  ⟨_, _, rfl, rfl, rfl, ("x-cors-redirect-9", "200 spoofed"), by decide, by decide, by decide⟩

/-- C1, amended: from a fresh state, `k ≤ maxRedirects` redirects with status 301, 302 or 303 whose
non-empty `Location` resolves to a URL that `parseURL` accepts, followed by one response that is
not a redirect, make `onProxyResponse` return `false` `k` times and then `true` once.  Each of the
`k` calls re-issues the request through `proxy.web` as `GET` against the resolved target (see
`ProxyCall.reissues`: method, `content-length`, `content-type`, stored target, `host`, the target
of the call and the request URL).  The headers set on `res` are then exactly `x-request-url` and
`X-CORS-Redirect-n` for `n` from 1 to `k`, with value
`"<status of hop n> <resolved location of hop n>"`; the map handed on has `x-final-url` equal to
the href of the last target, and apart from the keys the proxy writes or deletes it is the map of
the last upstream response (so any further `X-CORS-Redirect` header in it was sent upstream). -/
theorem redirect_chain_followed (lib : NodeLib) (hops : List ProxyRes) (final : ProxyRes)
    (req : Request) (location : Url) (ts : List (Nat × String × Url))
    (hloc : req.corsProksyRequestState.location = some location)
    (hfresh : req.corsProksyRequestState.redirectCount_ = none)
    (hk : hops.length ≤ req.corsProksyRequestState.maxRedirects)
    (hchain : chainTargets lib location hops = some ts)
    (hfinal : isRedirectStatus final.statusCode = false) :
    ∃ t, feed lib (hops ++ [final]) req { headers := [] } = some t ∧
      t.results = List.replicate hops.length false ++ [true] ∧
      List.Forall₂
        (fun call hop => call.reissues req.corsProksyRequestState.getProxyForUrl hop.2.2)
        t.calls ts ∧
      t.res.headers = ("x-request-url", location.href) :: redirectHeaders 1 ts ∧
      ∃ h, t.handed = some h ∧
        Obj.get h.headers "x-final-url" = some (lastTarget location ts).href ∧
        ∀ k, k ∉ corsKeys → k ≠ "x-final-url" → k ≠ "set-cookie" → k ≠ "set-cookie2" →
          Obj.get h.headers k = Obj.get final.headers k := by
  obtain ⟨t, ht, hres, hcalls, hhead, req', res', hhanded⟩ :=
    feed_chain lib final req.corsProksyRequestState.getProxyForUrl hfinal hops req
      { headers := [] } location ts 0 hloc rfl
      (by rw [hfresh]; rfl) (by omega) hchain (by intro j _ h; simp at h)
  refine ⟨t, ht, hres, hcalls, hhead, _, hhanded, handOn_final_url _ _ _ _, ?_⟩
  intro k hk h1 h2 h3
  exact handOn_get_other _ _ _ _ k hk h1 h2 h3

/-- C1, amended, at the chain `302 /login`, `301 https://b.test/home`, `200` for a `POST` to
`http://a.test/x` with `maxRedirects = 5`. -/
theorem redirect_chain_followed_witness :
    ∃ t, feed refLib
        ([{ statusCode := 302, headers := [("location", "/login")] },
          { statusCode := 301, headers := [("location", "https://b.test/home")] }] ++
          [{ statusCode := 200, headers := [("etag", "x")] }])
        (requestFor "POST" "/x" [("host", "proxy.test")] "http://a.test/x" 5) { headers := [] }
        = some t ∧
      t.results = [false, false, true] ∧
      List.Forall₂ (fun call hop => call.reissues (fun _ => "") hop.2.2) t.calls
        [(302, "http://a.test/login", refParse "http://a.test/login"),
          (301, "https://b.test/home", refParse "https://b.test/home")] ∧
      t.res.headers =
        [("x-request-url", "http://a.test/x"), ("X-CORS-Redirect-1", "302 http://a.test/login"),
          ("X-CORS-Redirect-2", "301 https://b.test/home")] ∧
      ∃ h, t.handed = some h ∧
        Obj.get h.headers "x-final-url" = some "https://b.test/home" ∧
        ∀ k, k ∉ corsKeys → k ≠ "x-final-url" → k ≠ "set-cookie" → k ≠ "set-cookie2" →
          Obj.get h.headers k = Obj.get [("etag", "x")] k :=
  redirect_chain_followed refLib
    [{ statusCode := 302, headers := [("location", "/login")] },
      { statusCode := 301, headers := [("location", "https://b.test/home")] }]
    { statusCode := 200, headers := [("etag", "x")] }
    (requestFor "POST" "/x" [("host", "proxy.test")] "http://a.test/x" 5)
    (refParse "http://a.test/x")
    [(302, "http://a.test/login", refParse "http://a.test/login"),
      (301, "https://b.test/home", refParse "https://b.test/home")]
    rfl rfl (by decide) rfl rfl

/-! ## What the handler and the engine send upstream (C6) -/

theorem proxyRequest_some (req : Request) (r : Request) (call : ProxyCall)
    (h : proxyRequest req = some (r, call)) :
    ∃ location, req.corsProksyRequestState.location = some location ∧
      call.req.headers = req.headers ∧ call.headers = [("host", location.host)] ∧
      call.req.method = req.method ∧
      call.req.corsProksyRequestState = req.corsProksyRequestState ∧ r = call.req := by
  unfold proxyRequest at h
  split at h
  · exact absurd h (by simp)
  · rename_i location hloc
    simp only at h
    split_ifs at h <;>
    · simp only [Option.some.injEq, Prod.mk.injEq] at h
      obtain ⟨rfl, rfl⟩ := h
      exact ⟨location, hloc, rfl, rfl, rfl, rfl, rfl⟩

/-- What the handler has done when it reaches `proxyRequest`. -/
theorem getHandler_proxied (corsProksy : Config) (lib : NodeLib)
    (readFile : String → Option String) (help_text : Obj) (req : Request) (call : ProxyCall)
    (h : (getHandler corsProksy lib readFile help_text req).1 = Outcome.proxied call) :
    ∃ location, parseURL lib (String.mk (req.url.data.drop 1)) = some location ∧
      call.req.corsProksyRequestState.location = some location ∧
      call.req.corsProksyRequestState.redirectCount_ = none ∧
      call.req.corsProksyRequestState.maxRedirects = corsProksy.maxRedirects ∧
      call.headers = [("host", location.host)] ∧
      call.req.headers =
        (Obj.keys corsProksy.setHeaders).foldl
          (fun h header => Obj.set h header ((Obj.get corsProksy.setHeaders header).getD ""))
          (corsProksy.removeHeaders.foldl (fun h header => Obj.delete h header)
            (withCORS [] { req with corsProksyRequestState := corsProksy.initialState }).2.headers) := by
  unfold getHandler at h
  simp only at h
  repeat' split at h
  all_goals first
    | (simp at h; done)
    | (exfalso
       have hcall := showUsage_call readFile help_text corsProksy.helpFile
         (withCORS [] { req with corsProksyRequestState := corsProksy.initialState }).1
       rw [h] at hcall
       exact absurd hcall (by simp [Outcome.call]))
    | skip
  rename_i hp _ _ _ _ _ _ _ _ hpr
  obtain ⟨location, hloc, hh, hhost, _, hst, _⟩ := proxyRequest_some _ _ _ hpr
  have hc := Outcome.proxied.inj h
  subst hc
  simp only [Option.some.injEq] at hloc
  subst hloc
  refine ⟨_, hp, ?_, ?_, ?_, hhost, hh⟩
  · rw [hst]
  · rw [hst]; rfl
  · rw [hst]; rfl


theorem Obj.mem_keys (o : Obj) (k : String) : k ∈ Obj.keys o ↔ k ∈ o.map Prod.fst := by
  unfold Obj.keys
  rw [List.mem_append, (List.perm_insertionSort _ _).mem_iff, List.mem_filter, List.mem_filter]
  constructor
  · rintro (h | h) <;> exact h.1
  · intro h
    cases hk : arrayIndex k
    · exact Or.inr ⟨h, by simp [hk]⟩
    · exact Or.inl ⟨h, by simp [hk]⟩

theorem Obj.get_foldl_delete (l : List String) (o : Obj) (k : String) (hk : k ∈ l) :
    Obj.get (l.foldl (fun h header => Obj.delete h header) o) k = none := by
  induction l generalizing o with
  | nil => exact absurd hk (List.not_mem_nil _)
  | cons a t ih =>
    simp only [List.foldl_cons]
    by_cases hkt : k ∈ t
    · exact ih _ hkt
    · have hka : k = a := by
        rcases List.mem_cons.mp hk with h | h
        · exact h
        · exact absurd h hkt
      subst hka
      have : ∀ (t : List String) (o : Obj), Obj.get o k = none →
          Obj.get (t.foldl (fun h header => Obj.delete h header) o) k = none := by
        intro t
        induction t with
        | nil => intro o h; exact h
        | cons b t iht =>
          intro o h
          simp only [List.foldl_cons]
          apply iht
          by_cases hb : b = k
          · rw [hb]; exact Obj.get_delete_self _ _
          · rw [Obj.get_delete_ne _ _ _ hb]; exact h
      exact this t _ (Obj.get_delete_self _ _)

theorem Obj.get_foldl_set (f : String → String) (l : List String) (o : Obj) (k : String)
    (hk : k ∉ l) :
    Obj.get (l.foldl (fun h header => Obj.set h header (f header)) o) k = Obj.get o k := by
  induction l generalizing o with
  | nil => rfl
  | cons a t ih =>
    simp only [List.mem_cons, not_or] at hk
    simp only [List.foldl_cons]
    rw [ih _ hk.2, Obj.get_set_ne _ _ _ _ (Ne.symm hk.1)]

theorem Obj.get_foldl_delete_other (l : List String) (o : Obj) (k : String) (hk : k ∉ l) :
    Obj.get (l.foldl (fun h header => Obj.delete h header) o) k = Obj.get o k := by
  induction l generalizing o with
  | nil => rfl
  | cons a t ih =>
    simp only [List.mem_cons, not_or] at hk
    simp only [List.foldl_cons]
    rw [ih _ hk.2, Obj.get_delete_ne _ _ _ (Ne.symm hk.1)]

theorem Obj.get_foldl_set_mem (f : String → String) (l : List String) (o : Obj) (k : String)
    (hk : k ∈ l) :
    Obj.get (l.foldl (fun h header => Obj.set h header (f header)) o) k = some (f k) := by
  induction l generalizing o with
  | nil => exact absurd hk (List.not_mem_nil _)
  | cons a t ih =>
    simp only [List.foldl_cons]
    by_cases hkt : k ∈ t
    · exact ih _ hkt
    · have hka : k = a := by
        rcases List.mem_cons.mp hk with h | h
        · exact h
        · exact absurd h hkt
      subst hka
      rw [Obj.get_foldl_set f t _ k hkt, Obj.get_set_self]

/-- The request headers after `withCORS`: only the two pre-flight headers may be deleted. -/
theorem withCORS_request_headers (headers : Obj) (request : Request) (k : String)
    (h1 : k ≠ "access-control-request-method") (h2 : k ≠ "access-control-request-headers") :
    Obj.get (withCORS headers request).2.headers k = Obj.get request.headers k := by
  simp only [withCORS]
  split_ifs <;>
    simp only [Obj.get_delete_ne _ _ _ (Ne.symm h1), Obj.get_delete_ne _ _ _ (Ne.symm h2)]

/-- What `withCORS` does to the two `access-control-request-*` headers of the request: one that
is present and not empty is deleted, any other stays as it was. -/
theorem withCORS_request_headers_cors (headers : Obj) (request : Request) (k : String)
    (hk : k = "access-control-request-method" ∨ k = "access-control-request-headers") :
    Obj.get (withCORS headers request).2.headers k =
      if truthy (Obj.get request.headers k) = true then none else Obj.get request.headers k := by
  have hne : ("access-control-request-method" : String) ≠ "access-control-request-headers" := by
    decide
  rcases hk with rfl | rfl
  · simp only [withCORS]
    split_ifs <;>
      simp only [Obj.get_delete_ne _ _ _ (Ne.symm hne), Obj.get_delete_self]
  · simp only [withCORS]
    by_cases hm : truthy (Obj.get request.headers "access-control-request-method") = true
    · simp only [hm, if_true, Obj.get_delete_ne _ _ _ hne]
      split_ifs
      · exact Obj.get_delete_self _ _
      · exact Obj.get_delete_ne _ _ _ hne
    · simp only [hm, if_false, Bool.false_eq_true]
      split_ifs
      · exact Obj.get_delete_self _ _
      · rfl

/-- A call of `onProxyResponse` that calls `proxy.web` is a followed redirect: the request goes out
with `content-length` set to `0` and `content-type` deleted, and with the new target's host. -/
theorem onProxyResponse_call (lib : NodeLib) (proxyRes : ProxyRes) (req : Request) (res : Response)
    (step : Step) (call : ProxyCall) (h : onProxyResponse lib proxyRes req res = some step)
    (hc : step.call = some call) :
    ∃ location L parsed, req.corsProksyRequestState.location = some location ∧
      resolveLocation lib location proxyRes = some (L, parsed) ∧
      call.req.corsProksyRequestState.location = some parsed ∧
      call.headers = [("host", parsed.host)] ∧
      call.req.headers = Obj.delete (Obj.set req.headers "content-length" "0") "content-type" ∧
      step.req = call.req := by
  unfold onProxyResponse at h
  simp only at h
  split at h
  · exact absurd h (by simp)
  · rename_i location hloc
    split_ifs at h
    all_goals first
      | (cases Option.some.inj h; exact absurd hc (by simp [handOn]))
      | (split at h <;> first
          | (cases Option.some.inj h; exact absurd hc (by simp [handOn]))
          | (rename_i L parsed hres
             split at h
             · exact absurd h (by simp)
             · rename_i r c hpr
               obtain ⟨loc', hl', hh, hhost, _, hst, hr⟩ := proxyRequest_some _ _ _ hpr
               cases Option.some.inj h
               simp only [Option.some.injEq] at hc hl'
               subst hc
               subst hl'
               exact ⟨location, L, parsed, hloc, hres, by rw [hst], hhost, hh, hr⟩))


/-- C6, as stated, fails: under the default configuration a request with `origin` and `referer`
headers is handed to `proxy.web` with both of them among its headers. -/
theorem default_config_forwards_origin :
    ∃ call, (getHandler (Config.default (fun _ => "")) refLib (fun _ => none) []
        (incoming "GET" "/http://example.com/"
          [("host", "proxy.test"), ("origin", "http://o.test"), ("referer", "http://o.test/page")])).1
        = Outcome.proxied call ∧
      call.headers = [("host", "example.com")] ∧
      Obj.get call.req.headers "origin" = some "http://o.test" ∧
      Obj.get call.req.headers "referer" = some "http://o.test/page" :=
  ⟨_, rfl, rfl, rfl, rfl⟩

/-- C6, amended: when the handler forwards a request, the headers of the request it hands to
`proxy.web` are those the client sent, changed in three ways only: `withCORS` deletes each of the
two `access-control-request-*` headers that is present and not empty, every header named in
`removeHeaders` is deleted, and every header of `setHeaders` is then set; the options set `host` to
the target's host.  So an `origin` or
`referer` header goes on as the client sent it unless `removeHeaders` or `setHeaders` names it.  On
a followed redirect hop `content-length` is set to `0`, `content-type` is deleted and every other
header stays as it was.  (What http-proxy adds on its own is outside this statement.) -/
theorem forwarded_request_headers :
    (∀ (corsProksy : Config) (lib : NodeLib) (readFile : String → Option String) (help_text : Obj)
        (req : Request) (call : ProxyCall),
        (getHandler corsProksy lib readFile help_text req).1 = Outcome.proxied call →
        (∃ location, call.req.corsProksyRequestState.location = some location ∧
          call.headers = [("host", location.host)]) ∧
        (∀ k, k ∈ corsProksy.setHeaders.map Prod.fst →
          Obj.get call.req.headers k = some ((Obj.get corsProksy.setHeaders k).getD "")) ∧
        (∀ k, k ∉ corsProksy.setHeaders.map Prod.fst → k ∈ corsProksy.removeHeaders →
          Obj.get call.req.headers k = none) ∧
        (∀ k, k ∉ corsProksy.setHeaders.map Prod.fst → k ∉ corsProksy.removeHeaders →
          k ≠ "access-control-request-method" → k ≠ "access-control-request-headers" →
          Obj.get call.req.headers k = Obj.get req.headers k) ∧
        (∀ k, k ∉ corsProksy.setHeaders.map Prod.fst → k ∉ corsProksy.removeHeaders →
          k = "access-control-request-method" ∨ k = "access-control-request-headers" →
          Obj.get call.req.headers k =
            if truthy (Obj.get req.headers k) = true then none else Obj.get req.headers k)) ∧
    (∀ (lib : NodeLib) (proxyRes : ProxyRes) (req : Request) (res : Response) (step : Step)
        (call : ProxyCall),
        onProxyResponse lib proxyRes req res = some step → step.call = some call →
        step.req = call.req ∧
        Obj.get call.req.headers "content-length" = some "0" ∧
        Obj.get call.req.headers "content-type" = none ∧
        (∀ k, k ≠ "content-length" → k ≠ "content-type" →
          Obj.get call.req.headers k = Obj.get req.headers k)) := by
  constructor
  · intro corsProksy lib readFile help_text req call h
    obtain ⟨location, _, hl, _, _, hh, hreq⟩ :=
      getHandler_proxied corsProksy lib readFile help_text req call h
    refine ⟨⟨location, hl, hh⟩, ?_, ?_, ?_, ?_⟩
    · intro k hk
      rw [hreq]
      exact Obj.get_foldl_set_mem (fun header => (Obj.get corsProksy.setHeaders header).getD "")
        _ _ k ((Obj.mem_keys _ _).mpr hk)
    · intro k hset hrem
      rw [hreq, Obj.get_foldl_set (fun header => (Obj.get corsProksy.setHeaders header).getD "") _ _ _
        (fun hm => hset ((Obj.mem_keys _ _).mp hm))]
      exact Obj.get_foldl_delete _ _ _ hrem
    · intro k hset hrem h1 h2
      rw [hreq, Obj.get_foldl_set (fun header => (Obj.get corsProksy.setHeaders header).getD "") _ _ _
        (fun hm => hset ((Obj.mem_keys _ _).mp hm)),
        Obj.get_foldl_delete_other _ _ _ hrem, withCORS_request_headers _ _ _ h1 h2]
    · intro k hset hrem hk
      rw [hreq, Obj.get_foldl_set (fun header => (Obj.get corsProksy.setHeaders header).getD "") _ _ _
        (fun hm => hset ((Obj.mem_keys _ _).mp hm)),
        Obj.get_foldl_delete_other _ _ _ hrem, withCORS_request_headers_cors _ _ _ hk]
  · intro lib proxyRes req res step call h hc
    obtain ⟨location, L, parsed, _, _, _, _, hreq, hstep⟩ :=
      onProxyResponse_call lib proxyRes req res step call h hc
    refine ⟨hstep, ?_, ?_, ?_⟩
    · rw [hreq, Obj.get_delete_ne _ _ _ (by decide), Obj.get_set_self]
    · rw [hreq, Obj.get_delete_self]
    · intro k h1 h2
      rw [hreq, Obj.get_delete_ne _ _ _ (Ne.symm h2), Obj.get_set_ne _ _ _ _ (Ne.symm h1)]

/-- C6, amended, at a configuration that removes `referer`: the request goes on without it and
with the `origin` the client sent, and so does the request of a followed redirect. -/
theorem forwarded_request_headers_witness :
    (∃ call, (getHandler { Config.default (fun _ => "") with removeHeaders := ["referer"] }
          refLib (fun _ => none) []
          (incoming "GET" "/http://example.com/"
            [("host", "proxy.test"), ("origin", "http://o.test"), ("referer", "http://o.test/p")])).1
          = Outcome.proxied call ∧
        Obj.get call.req.headers "referer" = none ∧
        Obj.get call.req.headers "origin" = some "http://o.test") ∧
    (∃ step call, onProxyResponse refLib { statusCode := 302, headers := [("location", "/login")] }
          (requestFor "POST" "/x" [("host", "proxy.test"), ("origin", "http://o.test")]
            "http://a.test/x" 5)
          { headers := [] } = some step ∧
        step.call = some call ∧ Obj.get call.req.headers "content-length" = some "0" ∧
        Obj.get call.req.headers "origin" = some "http://o.test") :=
  ⟨⟨_, rfl,
      (forwarded_request_headers.1
        { Config.default (fun _ => "") with removeHeaders := ["referer"] }
        refLib (fun _ => none) []
        (incoming "GET" "/http://example.com/"
          [("host", "proxy.test"), ("origin", "http://o.test"), ("referer", "http://o.test/p")])
        _ rfl).2.2.1 "referer" (by decide) (by decide),
      ((forwarded_request_headers.1
        { Config.default (fun _ => "") with removeHeaders := ["referer"] }
        refLib (fun _ => none) []
        (incoming "GET" "/http://example.com/"
          [("host", "proxy.test"), ("origin", "http://o.test"), ("referer", "http://o.test/p")])
        _ rfl).2.2.2.1 "origin" (by decide) (by decide) (by decide) (by decide)).trans rfl⟩,
    ⟨_, _, rfl, rfl,
      (forwarded_request_headers.2 refLib { statusCode := 302, headers := [("location", "/login")] }
        (requestFor "POST" "/x" [("host", "proxy.test"), ("origin", "http://o.test")]
          "http://a.test/x" 5)
        { headers := [] } _ _ rfl rfl).2.1,
      ((forwarded_request_headers.2 refLib { statusCode := 302, headers := [("location", "/login")] }
        (requestFor "POST" "/x" [("host", "proxy.test"), ("origin", "http://o.test")]
          "http://a.test/x" 5)
        { headers := [] } _ _ rfl rfl).2.2.2 "origin" (by decide) (by decide)).trans rfl⟩⟩

/-! ## The pattern and the scheme of `parseURL` (C7, C8) -/

theorem ciEq_lower (c l : Char) (hl : l = 'h' ∨ l = 't' ∨ l = 'p' ∨ l = 's')
    (h : ciEq c l = true) : c.toLower = l := by
  simp only [ciEq, Bool.or_eq_true, beq_iff_eq] at h
  rcases hl with rfl | rfl | rfl | rfl <;> rcases h with rfl | rfl <;> rfl

/-- What `https?:` matches is `http:` or `https:` up to letter case, and it is a prefix. -/
theorem matchScheme_some (cs p r : List Char) (h : matchScheme cs = some (p, r)) :
    cs = p ++ r ∧ (p.map Char.toLower = "http:".data ∨ p.map Char.toLower = "https:".data) := by
  unfold matchScheme at h
  split at h
  · rename_i c1 c2 c3 c4 c5 r1
    split_ifs at h with h4 h5 h6
    · split at h
      · simp only [Option.some.injEq, Prod.mk.injEq] at h
        obtain ⟨rfl, rfl⟩ := h
        simp only [Bool.and_eq_true] at h4
        obtain ⟨⟨⟨a1, a2⟩, a3⟩, a4⟩ := h4
        refine ⟨rfl, Or.inr ?_⟩
        simp only [List.map_cons, List.map_nil, ciEq_lower _ _ (by simp) a1,
          ciEq_lower _ _ (by simp) a2, ciEq_lower _ _ (by simp) a3, ciEq_lower _ _ (by simp) a4,
          ciEq_lower _ _ (by simp) h5]
        rfl
      · exact absurd h (by simp)
    · simp only [Option.some.injEq, Prod.mk.injEq] at h
      obtain ⟨rfl, rfl⟩ := h
      simp only [Bool.and_eq_true] at h4
      obtain ⟨⟨⟨a1, a2⟩, a3⟩, a4⟩ := h4
      simp only [beq_iff_eq] at h6
      subst h6
      refine ⟨rfl, Or.inl ?_⟩
      simp only [List.map_cons, List.map_nil, ciEq_lower _ _ (by simp) a1,
        ciEq_lower _ _ (by simp) a2, ciEq_lower _ _ (by simp) a3, ciEq_lower _ _ (by simp) a4]
      rfl
  · exact absurd h (by simp)

/-- Group 1 is present only when the first alternative of the prefix matched. -/
theorem urlMatch_protocol (s : String) (m : UrlMatch) (h : urlMatch s = some m)
    (hp : truthy m.protocol = true) :
    ∃ p r, matchScheme s.data = some (p, '/' :: '/' :: r) := by
  unfold urlMatch at h
  split at h
  · rename_i m' hm
    cases Option.some.inj h
    unfold matchWithScheme at hm
    split at hm
    · exact ⟨_, _, by assumption⟩
    · exact absurd hm (by simp)
  · have hnone : m.protocol = none := by
      split at h
      · rename_i m' hm
        cases Option.some.inj h
        unfold matchWithSlashes at hm
        split at hm
        · simp only [Option.map_eq_some'] at hm
          obtain ⟨a, _, rfl⟩ := hm
          rfl
        · exact absurd hm (by simp)
      · simp only [Option.map_eq_some'] at h
        obtain ⟨a, _, rfl⟩ := h
        rfl
    rw [hnone] at hp
    exact absurd hp (by simp [truthy])

theorem lacksLeadingSlashes_false (s : String) (h : lacksLeadingSlashes s = false) :
    ∃ rest, s.data = '/' :: '/' :: rest := by
  unfold lacksLeadingSlashes at h
  split at h
  · exact ⟨_, by assumption⟩
  · exact absurd h (by simp)

/-- The text that `parseURL` gives to `url.parse`. -/
theorem parseURL_some (lib : NodeLib) (s : String) (loc : Url) (h : parseURL lib s = some loc) :
    ∃ m u, urlMatch s = some m ∧ loc = lib.urlParse u ∧ loc.hostname ≠ "" ∧
      ((truthy m.protocol = true ∧ u = s) ∨
        (truthy m.protocol = false ∧ hasSchemePrefix s = false ∧
          ∃ rest : List Char,
            u = (if m.port = some "443" then "https:" else "http:") ++ String.mk ('/' :: '/' :: rest))) := by
  unfold parseURL at h
  split at h
  · exact absurd h (by simp)
  · rename_i m hm
    simp only at h
    generalize hproto : (if m.port = some "443" then "https:" else "http:" : String) = proto at h ⊢
    by_cases h1 : truthy m.protocol = true
    · simp only [h1, if_true] at h
      split_ifs at h with hh
      cases Option.some.inj h
      exact ⟨m, s, hm, rfl, hh, Or.inl ⟨h1, rfl⟩⟩
    · by_cases h2 : hasSchemePrefix s = true
      · simp only [h1, h2, if_true, if_false] at h
        exact absurd h (by simp)
      · simp only [h1, h2, Bool.false_eq_true, if_false] at h
        by_cases h3 : lacksLeadingSlashes s = true
        · simp only [h3, if_true] at h
          split_ifs at h with hh
          have hl := Option.some.inj h
          exact ⟨m, _, hm, hl.symm, by rw [← hl]; exact hh,
            Or.inr ⟨by simpa using h1, by simpa using h2, s.data, by rw [hproto]; rfl⟩⟩
        · simp only [h3, Bool.false_eq_true, if_false] at h
          split_ifs at h with hh
          have hl := Option.some.inj h
          obtain ⟨rest, hrest⟩ := lacksLeadingSlashes_false s (by simpa using h3)
          refine ⟨m, _, hm, hl.symm, by rw [← hl]; exact hh,
            Or.inr ⟨by simpa using h1, by simpa using h2, rest, ?_⟩⟩
          rw [← hrest, hproto]


theorem matchPath_of_lookahead (cs : List Char) (h : lookahead cs = true) :
    matchPath cs = some cs := by
  cases cs with
  | nil => rfl
  | cons c r => simp only [lookahead] at h; simp only [matchPath, h, if_true]

theorem matchDigits_none (r : List Char) : ∀ n : Nat,
    (∀ k, k ≤ n → lookahead (r.drop k) = false) → matchDigits n r = none := by
  intro n
  induction n with
  | zero =>
    intro h
    have h0 := h 0 (le_refl 0)
    simp only [matchDigits, matchAfterDigits, h0, Bool.false_eq_true, if_false]
  | succ n ih =>
    intro h
    have h0 := h (n + 1) (le_refl _)
    simp only [matchDigits, matchAfterDigits, h0, Bool.false_eq_true, if_false]
    exact ih (fun k hk => h k (Nat.le_succ_of_le hk))

theorem takeWhile_digit_length (h2 rest : List Char) :
    ((h2 ++ ':' :: rest).takeWhile Char.isDigit).length ≤ h2.length := by
  induction h2 with
  | nil => simp [List.takeWhile, show Char.isDigit ':' = false from rfl]
  | cons c t ih =>
    rw [List.cons_append, List.takeWhile_cons]
    split
    · simp only [List.length_cons]; omega
    · simp

theorem lookahead_drop (h2 rest : List Char) (hsep : ∀ c ∈ h2, isSep c = false) (k : Nat)
    (hk : k ≤ h2.length) : lookahead ((h2 ++ ':' :: rest).drop k) = false := by
  induction h2 generalizing k with
  | nil =>
    simp only [List.length_nil, Nat.le_zero] at hk
    subst hk
    rfl
  | cons c t ih =>
    cases k with
    | zero => simp only [List.drop_zero, List.cons_append, lookahead]; exact hsep c (List.mem_cons_self _ _)
    | succ k =>
      simp only [List.cons_append, List.drop_succ_cons]
      exact ih (fun c hc => hsep c (List.mem_cons_of_mem _ hc)) k (by simpa using hk)

theorem matchPort_none (c : Char) (h2 rest : List Char)
    (hsep : ∀ c ∈ h2, isSep c = false) : matchPort (c :: (h2 ++ ':' :: rest)) = none := by
  unfold matchPort
  split
  · rename_i r heq
    obtain ⟨_, rfl⟩ := List.cons.inj heq
    apply matchDigits_none
    intro k hk
    apply lookahead_drop h2 rest hsep
    have := takeWhile_digit_length h2 rest
    omega
  · rfl

/-- Inside the hostname no shorter hostname lets the rest of the pattern match. -/
theorem matchPortPath_none (c : Char) (h2 rest : List Char) (hc : isSep c = false)
    (hsep : ∀ c ∈ h2, isSep c = false) : matchPortPath (c :: (h2 ++ ':' :: rest)) = none := by
  have hpath : matchPath (c :: (h2 ++ ':' :: rest)) = none := by
    simp only [matchPath, hc, Bool.false_eq_true, if_false]
  unfold matchPortPath
  rw [matchPort_none c h2 rest hsep, hpath]
  rfl

theorem takeWhile_digits (digits tail : List Char) (hd : ∀ c ∈ digits, c.isDigit = true)
    (htail : lookahead tail = true) : (digits ++ tail).takeWhile Char.isDigit = digits := by
  induction digits with
  | nil =>
    cases tail with
    | nil => rfl
    | cons c r =>
      simp only [lookahead, isSep, Bool.or_eq_true, beq_iff_eq] at htail
      rcases htail with rfl | rfl <;> rfl
  | cons c t ih =>
    rw [List.cons_append, List.takeWhile_cons, if_pos (hd c (List.mem_cons_self _ _)),
      ih (fun c hc => hd c (List.mem_cons_of_mem _ hc))]

theorem matchDigits_all (digits tail : List Char) (htail : lookahead tail = true) :
    matchDigits digits.length (digits ++ tail) = some (digits, tail) := by
  have h : matchAfterDigits digits.length (digits ++ tail) = some (digits, tail) := by
    simp only [matchAfterDigits, List.drop_left, htail, if_true,
      matchPath_of_lookahead tail htail, List.take_left, Option.map_some']
  cases hn : digits.length with
  | zero => rw [hn] at h; simp only [matchDigits, h]
  | succ n => rw [hn] at h; simp only [matchDigits, h]

/-- At the colon before a run of at most five digits that ends the authority, the port matches. -/
theorem matchPortPath_port (digits tail : List Char) (hd : ∀ c ∈ digits, c.isDigit = true)
    (hlen : digits.length ≤ 5) (htail : lookahead tail = true) :
    matchPortPath (':' :: (digits ++ tail)) = some (some digits, tail) := by
  unfold matchPortPath matchPort
  simp only [takeWhile_digits digits tail hd htail, min_eq_right hlen,
    matchDigits_all digits tail htail]

theorem matchHost_port (digits tail : List Char) (hd : ∀ c ∈ digits, c.isDigit = true)
    (hlen : digits.length ≤ 5) (htail : lookahead tail = true) :
    ∀ (h2 acc : List Char), (∀ c ∈ h2, isSep c = false) →
      matchHost acc (h2 ++ ':' :: (digits ++ tail)) = some (acc ++ h2, some digits, tail) := by
  intro h2
  induction h2 with
  | nil =>
    intro acc _
    simp only [List.nil_append, matchHost, matchPortPath_port digits tail hd hlen htail,
      List.append_nil]
  | cons c t ih =>
    intro acc hsep
    have hc := hsep c (List.mem_cons_self _ _)
    have ht : ∀ c ∈ t, isSep c = false := fun c hc => hsep c (List.mem_cons_of_mem _ hc)
    rw [List.cons_append, matchHost]
    simp only [matchPortPath_none c t (digits ++ tail) hc ht, hc, Bool.false_eq_true, if_false]
    rw [ih (acc ++ [c]) ht]
    simp

theorem matchAuthority_port (host digits tail : List Char) (hne : host ≠ [])
    (hsep : ∀ c ∈ host, isSep c = false) (hd : ∀ c ∈ digits, c.isDigit = true)
    (hlen : digits.length ≤ 5) (htail : lookahead tail = true) :
    matchAuthority (host ++ ':' :: (digits ++ tail)) = some (host, some digits, tail) := by
  cases host with
  | nil => exact absurd rfl hne
  | cons c t =>
    simp only [List.cons_append, matchAuthority, hsep c (List.mem_cons_self _ _),
      Bool.false_eq_true, if_false]
    rw [matchHost_port digits tail hd hlen htail t [c]
      (fun c hc => hsep c (List.mem_cons_of_mem _ hc))]
    rfl


theorem ciEq_cases (c l : Char) (h : ciEq c l = true) : c = l ∨ c = l.toUpper := by
  simpa only [ciEq, Bool.or_eq_true, beq_iff_eq] using h

theorem refParse_parsesScheme : ParsesScheme refParse := by
  intro u p r h
  obtain ⟨data⟩ := u
  simp only at h
  unfold matchScheme at h
  split at h
  · rename_i c1 c2 c3 c4 c5 r1
    split_ifs at h with h4 h5 h6
    · split at h
      · simp only [Option.some.injEq, Prod.mk.injEq] at h
        obtain ⟨rfl, rfl⟩ := h
        simp only [Bool.and_eq_true] at h4
        obtain ⟨⟨⟨a1, a2⟩, a3⟩, a4⟩ := h4
        rcases ciEq_cases _ _ a1 with rfl | rfl <;> rcases ciEq_cases _ _ a2 with rfl | rfl <;>
          rcases ciEq_cases _ _ a3 with rfl | rfl <;> rcases ciEq_cases _ _ a4 with rfl | rfl <;>
          rcases ciEq_cases _ _ h5 with rfl | rfl <;> rfl
      · exact absurd h (by simp)
    · simp only [Option.some.injEq, Prod.mk.injEq] at h
      obtain ⟨rfl, rfl⟩ := h
      simp only [Bool.and_eq_true] at h4
      obtain ⟨⟨⟨a1, a2⟩, a3⟩, a4⟩ := h4
      simp only [beq_iff_eq] at h6
      subst h6
      rcases ciEq_cases _ _ a1 with rfl | rfl <;> rcases ciEq_cases _ _ a2 with rfl | rfl <;>
        rcases ciEq_cases _ _ a3 with rfl | rfl <;> rcases ciEq_cases _ _ a4 with rfl | rfl <;> rfl
  · exact absurd h (by simp)


theorem matchScheme_http (rest : List Char) :
    matchScheme ("http:".data ++ '/' :: '/' :: rest) = some ("http:".data, '/' :: '/' :: rest) := rfl

theorem matchScheme_https (rest : List Char) :
    matchScheme ("https:".data ++ '/' :: '/' :: rest) = some ("https:".data, '/' :: '/' :: rest) := rfl

theorem explicitScheme_some (s scheme : String) (h : explicitScheme s = some scheme) :
    (∃ p r, matchScheme s.data = some (p, '/' :: '/' :: r) ∧ scheme = String.mk (p.map Char.toLower)) ∧
      (scheme = "http:" ∨ scheme = "https:") := by
  unfold explicitScheme at h
  split at h
  · rename_i p r hm
    have hs := (Option.some.inj h).symm
    refine ⟨⟨p, r, hm, hs⟩, ?_⟩
    rcases (matchScheme_some _ _ _ hm).2 with hp | hp
    · left; rw [hs, hp]
    · right; rw [hs, hp]
  · exact absurd h (by simp)

theorem explicitScheme_none (s : String) (h : explicitScheme s = none) (p r : List Char) :
    matchScheme s.data ≠ some (p, '/' :: '/' :: r) := by
  intro hm
  unfold explicitScheme at h
  rw [hm] at h
  exact absurd h (by simp)

/-- The protocol that `parseURL` returns. -/
theorem parseURL_protocol (lib : NodeLib) (hlib : ParsesScheme lib.urlParse) (s : String)
    (loc : Url) (h : parseURL lib s = some loc) :
    loc.hostname ≠ "" ∧
      (explicitScheme s = none →
        loc.protocol = if inputPort s = some "443" then "https:" else "http:") ∧
      (∀ scheme, explicitScheme s = some scheme → loc.protocol = scheme) := by
  obtain ⟨m, u, hm, hloc, hhost, hcase⟩ := parseURL_some lib s loc h
  have hport : inputPort s = m.port := by simp only [inputPort, hm, Option.some_bind]
  refine ⟨hhost, ?_, ?_⟩
  · intro hnone
    rcases hcase with ⟨ht, _⟩ | ⟨_, _, rest, hu⟩
    · obtain ⟨p, r, hp⟩ := urlMatch_protocol s m hm ht
      exact absurd hp (explicitScheme_none s hnone p r)
    · rw [hport, hloc, hu]
      by_cases h443 : m.port = some "443"
      · simp only [h443, if_true]
        exact hlib _ _ _ (matchScheme_https rest)
      · simp only [h443, if_false]
        exact hlib _ _ _ (matchScheme_http rest)
  · intro scheme hs
    obtain ⟨⟨p, r, hp, hsch⟩, _⟩ := explicitScheme_some s scheme hs
    rcases hcase with ⟨_, hu⟩ | ⟨_, hpre, _⟩
    · rw [hloc, hu, hsch]
      exact hlib s p r hp
    · simp only [hasSchemePrefix, hp, Option.isSome_some] at hpre
      exact absurd hpre (by simp)

theorem parseURL_protocol_http (lib : NodeLib) (hlib : ParsesScheme lib.urlParse) (s : String)
    (loc : Url) (h : parseURL lib s = some loc) :
    loc.hostname ≠ "" ∧ (loc.protocol = "http:" ∨ loc.protocol = "https:") := by
  obtain ⟨hhost, hnone, hsome⟩ := parseURL_protocol lib hlib s loc h
  refine ⟨hhost, ?_⟩
  cases hs : explicitScheme s with
  | none =>
    rw [hnone hs]
    split_ifs
    · exact Or.inr rfl
    · exact Or.inl rfl
  | some scheme =>
    rw [hsome scheme hs]
    exact (explicitScheme_some s scheme hs).2

theorem matchHost_noport (tail : List Char) (htail : lookahead tail = true) :
    ∀ (h2 acc : List Char), (∀ c ∈ h2, isSep c = false ∧ c ≠ ':') →
      matchHost acc (h2 ++ tail) = some (acc ++ h2, none, tail) := by
  intro h2
  induction h2 with
  | nil =>
    intro acc _
    cases tail with
    | nil => simp [matchHost, matchPortPath, matchPort, matchPath]
    | cons c r =>
      simp only [lookahead] at htail
      have hc : c ≠ ':' := by
        intro hc; subst hc; exact absurd htail (by decide)
      have hport : matchPort (c :: r) = none := by
        unfold matchPort
        split
        · rename_i heq; exact absurd (List.cons.inj heq).1 hc
        · rfl
      simp only [List.nil_append, matchHost, matchPortPath, hport, matchPath, htail, if_true,
        Option.map_some', List.append_nil]
  | cons c t ih =>
    intro acc hsep
    have hc := hsep c (List.mem_cons_self _ _)
    have ht : ∀ c ∈ t, isSep c = false ∧ c ≠ ':' := fun c hc => hsep c (List.mem_cons_of_mem _ hc)
    have hport : matchPort (c :: (t ++ tail)) = none := by
      unfold matchPort
      split
      · rename_i heq; exact absurd (List.cons.inj heq).1 hc.2
      · rfl
    rw [List.cons_append, matchHost]
    simp only [matchPortPath, hport, matchPath, hc.1, Bool.false_eq_true, if_false,
      Option.map_none']
    rw [ih (acc ++ [c]) ht]
    simp

theorem matchAuthority_noport (host tail : List Char) (hne : host ≠ [])
    (hsep : ∀ c ∈ host, isSep c = false ∧ c ≠ ':') (htail : lookahead tail = true) :
    matchAuthority (host ++ tail) = some (host, none, tail) := by
  cases host with
  | nil => exact absurd rfl hne
  | cons c t =>
    simp only [List.cons_append, matchAuthority, (hsep c (List.mem_cons_self _ _)).1,
      Bool.false_eq_true, if_false]
    rw [matchHost_noport tail htail t [c] (fun c hc => hsep c (List.mem_cons_of_mem _ hc))]
    rfl

/-- The groups of an input without an explicit scheme whose authority is `auth`. -/
theorem urlMatch_of_authority (s : String) (pre auth : List Char)
    (m : List Char × Option (List Char) × List Char)
    (hpre : pre = [] ∨ pre = ['/', '/']) (hs : s.data = pre ++ auth)
    (hno : explicitScheme s = none) (hauth : matchAuthority auth = some m) :
    urlMatch s = some (UrlMatch.ofParts none m) := by
  have h1 : matchWithScheme s.data = none := by
    unfold matchWithScheme
    split
    · rename_i p r hm
      exact absurd hm (explicitScheme_none s hno p r)
    · rfl
  unfold urlMatch
  simp only [h1]
  rcases hpre with rfl | rfl
  · simp only [List.nil_append] at hs
    have h2 : matchWithSlashes auth = none := by
      cases auth with
      | nil => rfl
      | cons c t =>
        have hc : c ≠ '/' := by
          intro hc
          subst hc
          simp [matchAuthority, isSep] at hauth
        unfold matchWithSlashes
        split
        · rename_i heq
          exact absurd (List.cons.inj heq).1 hc
        · rfl
    simp only [hs, h2, hauth, Option.map_some']
  · simp only [hs, List.cons_append, List.nil_append, matchWithSlashes, hauth, Option.map_some']


theorem resolveLocation_some (lib : NodeLib) (current : Url) (proxyRes : ProxyRes) (L : String)
    (parsed : Url) (h : resolveLocation lib current proxyRes = some (L, parsed)) :
    parseURL lib L = some parsed := by
  unfold resolveLocation at h
  split at h
  · exact absurd h (by simp)
  · split_ifs at h
    simp only [Option.map_eq_some', Prod.mk.injEq] at h
    obtain ⟨a, ha, rfl, rfl⟩ := h
    exact ha

/-- The target that a call of `onProxyResponse` leaves in the request state is the one it found
or the parsed `Location` of a redirect. -/
theorem onProxyResponse_location (lib : NodeLib) (proxyRes : ProxyRes) (req : Request)
    (res : Response) (step : Step) (loc : Url)
    (h : onProxyResponse lib proxyRes req res = some step)
    (hl : req.corsProksyRequestState.location = some loc) :
    step.req.corsProksyRequestState.location = some loc ∨
      ∃ L parsed, resolveLocation lib loc proxyRes = some (L, parsed) ∧
        step.req.corsProksyRequestState.location = some parsed := by
  unfold onProxyResponse at h
  simp only [hl] at h
  split_ifs at h
  all_goals first
    | (cases Option.some.inj h; exact Or.inl hl)
    | (split at h <;> first
        | (cases Option.some.inj h; first | exact Or.inl hl | exact Or.inl rfl)
        | (rename_i L parsed hres
           split at h
           · exact absurd h (by simp)
           · rename_i r c hpr
             obtain ⟨loc', hl', _, _, _, hst, hr⟩ := proxyRequest_some _ _ _ hpr
             cases Option.some.inj h
             right
             refine ⟨L, parsed, hres, ?_⟩
             rw [hr, hst]))


/-- C7: for an input that `parseURL` accepts, if the input has no explicit scheme the protocol of
the result is `https:` exactly when the port read from the input is the literal `443`, and `http:`
otherwise; if the input begins with `http://` or `https://`, in any letter case, the protocol is
that scheme whatever the port.  The port read from `[//]host:digits[/...]` is `digits`, and no port
is read from `[//]host[/...]` when `host` has no colon.  (`url.parse` is assumed to return the
scheme of a text that starts with `http://` or `https://` as its protocol.) -/
theorem parseURL_scheme (lib : NodeLib) (hlib : ParsesScheme lib.urlParse) (s : String)
    (loc : Url) (h : parseURL lib s = some loc) :
    (explicitScheme s = none →
      loc.protocol = if inputPort s = some "443" then "https:" else "http:") ∧
    (∀ scheme, explicitScheme s = some scheme →
      loc.protocol = scheme ∧ (scheme = "http:" ∨ scheme = "https:")) ∧
    (∀ pre host digits tail : List Char, pre = [] ∨ pre = ['/', '/'] → host ≠ [] →
      (∀ c ∈ host, isSep c = false) → (∀ c ∈ digits, c.isDigit = true) → digits.length ≤ 5 →
      lookahead tail = true → s.data = pre ++ (host ++ ':' :: (digits ++ tail)) →
      explicitScheme s = none → inputPort s = some (String.mk digits)) ∧
    (∀ pre host tail : List Char, pre = [] ∨ pre = ['/', '/'] → host ≠ [] →
      (∀ c ∈ host, isSep c = false ∧ c ≠ ':') → lookahead tail = true →
      s.data = pre ++ (host ++ tail) → explicitScheme s = none → inputPort s = none) := by
  obtain ⟨_, hnone, hsome⟩ := parseURL_protocol lib hlib s loc h
  refine ⟨hnone, fun scheme hs => ⟨hsome scheme hs, (explicitScheme_some s scheme hs).2⟩, ?_, ?_⟩
  · intro pre host digits tail hpre hne hsep hd hlen htail hs hno
    have hm := urlMatch_of_authority s pre _ _ hpre hs hno
      (matchAuthority_port host digits tail hne hsep hd hlen htail)
    simp only [inputPort, hm, Option.some_bind, UrlMatch.ofParts, Option.map_some']
  · intro pre host tail hpre hne hsep htail hs hno
    have hm := urlMatch_of_authority s pre _ _ hpre hs hno
      (matchAuthority_noport host tail hne hsep htail)
    simp only [inputPort, hm, Option.some_bind, UrlMatch.ofParts, Option.map_none']

/-- C7 at `example.com:443/x`, which gives `https:`; `api.example.com/v1` gives `http:` with the
hostname `api.example.com`, and `HTTPS://example.com:80/` keeps `https:`. -/
theorem parseURL_scheme_witness :
    ParsesScheme refLib.urlParse ∧
      (parseURL refLib "example.com:443/x").map (fun u => u.protocol) = some "https:" ∧
      explicitScheme "example.com:443/x" = none ∧ inputPort "example.com:443/x" = some "443" ∧
      (parseURL refLib "api.example.com/v1").map (fun u => (u.protocol, u.hostname))
        = some ("http:", "api.example.com") ∧
      (parseURL refLib "HTTPS://example.com:80/").map (fun u => u.protocol) = some "https:" :=
  ⟨refParse_parsesScheme,
    by
      rw [show parseURL refLib "example.com:443/x" = some (refParse "https://example.com:443/x")
        from rfl]
      exact congrArg some
        ((parseURL_scheme refLib refParse_parsesScheme "example.com:443/x"
          (refParse "https://example.com:443/x") rfl).1 rfl),
    rfl, rfl, rfl, rfl⟩

/-- C8: a location that `parseURL` returns has a hostname that is not empty and the protocol
`http:` or `https:` in lower case, however the scheme was written in the input; so has the target
that the handler stores when it forwards a request, and so has the target after any call of
`onProxyResponse` on a state whose target has these properties.  (`url.parse` is assumed to
return the scheme of a text that starts with `http://` or `https://` as its protocol.) -/
theorem parseURL_target (lib : NodeLib) (hlib : ParsesScheme lib.urlParse) :
    (∀ (s : String) (loc : Url), parseURL lib s = some loc → loc.isTarget) ∧
    (∀ (corsProksy : Config) (readFile : String → Option String) (help_text : Obj) (req : Request)
        (call : ProxyCall),
        (getHandler corsProksy lib readFile help_text req).1 = Outcome.proxied call →
        ∃ loc, call.req.corsProksyRequestState.location = some loc ∧ loc.isTarget) ∧
    (∀ (proxyRes : ProxyRes) (req : Request) (res : Response) (step : Step) (loc : Url),
        onProxyResponse lib proxyRes req res = some step →
        req.corsProksyRequestState.location = some loc → loc.isTarget →
        ∃ loc', step.req.corsProksyRequestState.location = some loc' ∧ loc'.isTarget) := by
  refine ⟨fun s loc h => parseURL_protocol_http lib hlib s loc h, ?_, ?_⟩
  · intro corsProksy readFile help_text req call h
    obtain ⟨location, hp, hl, _⟩ := getHandler_proxied corsProksy lib readFile help_text req call h
    exact ⟨location, hl, parseURL_protocol_http lib hlib _ location hp⟩
  · intro proxyRes req res step loc h hl hgood
    rcases onProxyResponse_location lib proxyRes req res step loc h hl with h1 | ⟨L, parsed, hres, h1⟩
    · exact ⟨loc, h1, hgood⟩
    · exact ⟨parsed, h1,
        parseURL_protocol_http lib hlib L parsed (resolveLocation_some lib loc proxyRes L parsed hres)⟩

/-- C8 at an input whose scheme is written in mixed case. -/
theorem parseURL_target_witness :
    ParsesScheme refLib.urlParse ∧
      parseURL refLib "hTTpS://Example.COM/a" = some (refParse "hTTpS://Example.COM/a") ∧
      (refParse "hTTpS://Example.COM/a").protocol = "https:" ∧
      (refParse "hTTpS://Example.COM/a").isTarget :=
  ⟨refParse_parsesScheme, rfl, rfl,
    (parseURL_target refLib refParse_parsesScheme).1 "hTTpS://Example.COM/a" _ rfl⟩

/-! ## The host check (C9) -/

/-- C9 at `/HTTP://example.com/`: the Normalizer accepts the input as an explicit `http:` URL for
the host `example.com`, yet the handler answers 404 `Invalid host`, because the test on line 308
has no `i` flag; the same request with the scheme in lower case is forwarded. -/
theorem uppercase_scheme_rejected_as_invalid_host :
    explicitScheme "HTTP://example.com/" = some "http:" ∧
      parseURL refLib "HTTP://example.com/" = some (refParse "HTTP://example.com/") ∧
      (refParse "HTTP://example.com/").hostname = "example.com" ∧
      hasExplicitScheme "/HTTP://example.com/" = false ∧
      (getHandler (Config.default (fun _ => "")) refLib (fun _ => none) []
          (incoming "GET" "/HTTP://example.com/" [("host", "proxy.test")])).1.reply?
        = some (Reply.mk 404 (some "Invalid host")
            [("access-control-allow-origin", "*"),
              ("access-control-expose-headers", "access-control-allow-origin")]
            "Invalid host: example.com") ∧
      ((getHandler (Config.default (fun _ => "")) refLib (fun _ => none) []
          (incoming "GET" "/http://example.com/" [("host", "proxy.test")])).1.call).isSome = true :=
  ⟨rfl, rfl, rfl, rfl, rfl, rfl⟩

/-! ## The help page (C10) -/

/-- The handler on a request whose path `parseURL` rejects and that is not of the one-slash form. -/
theorem getHandler_usage (corsProksy : Config) (lib : NodeLib) (readFile : String → Option String)
    (help_text : Obj) (req : Request) (hm : req.method ≠ "OPTIONS")
    (hhook : ∀ hook, corsProksy.handleInitialRequest = some hook →
      hook (withCORS [] { req with corsProksyRequestState := corsProksy.initialState }).2 none = false)
    (hp : parseURL lib (String.mk (req.url.data.drop 1)) = none)
    (hs : isMissingSlash req.url = false) :
    getHandler corsProksy lib readFile help_text req =
      showUsage readFile help_text corsProksy.helpFile
        (withCORS [] { req with corsProksyRequestState := corsProksy.initialState }).1 := by
  have hm' : ¬ (withCORS [] { req with corsProksyRequestState := corsProksy.initialState }).2.method
      = "OPTIONS" := hm
  have hu : (withCORS [] { req with corsProksyRequestState := corsProksy.initialState }).2.url
      = req.url := rfl
  unfold getHandler
  simp only [hm', if_false, hu, hp, hs, Bool.false_eq_true]
  cases hh : corsProksy.handleInitialRequest with
  | none => simp only [Bool.false_eq_true, if_false]
  | some hook =>
    have := hhook hook hh
    simp only [hu, hp] at this
    simp only [this, Bool.false_eq_true, if_false]

/-- The reply of `showUsage` for a help file whose name is not the name of an inherited member. -/
theorem showUsage_status (readFile : String → Option String) (help_text : Obj) (help_file : String)
    (headers : Obj) (h1 : help_file ≠ "__proto__") (h2 : help_file ∉ inheritedFunctions) :
    ∃ r, (showUsage readFile help_text help_file headers).1 = Outcome.reply r ∧
      match Obj.get help_text help_file with
      | some text => r.statusCode = 200 ∧ r.body = text
      | none =>
        match readFile help_file with
        | some data => r.statusCode = 200 ∧ r.body = data
        | none => r.statusCode = 500 ∧ r.body = "" := by
  unfold showUsage cacheLookup
  cases hg : Obj.get help_text help_file with
  | some text => exact ⟨_, rfl, rfl, rfl⟩
  | none =>
    simp only [h1, h2, if_false]
    cases hr : readFile help_file with
    | some data => exact ⟨_, rfl, rfl, rfl⟩
    | none => exact ⟨_, rfl, rfl, rfl⟩

/-- C10, as stated, fails: a request for `/`, which `parseURL` rejects, is answered with the help
text and status 200, not 404. -/
theorem help_page_status_is_200 :
    ∃ r, (getHandler (Config.default (fun _ => "")) refLib
          (fun file => if file = "./readme.md" then some "how to use the proxy" else none) []
          (incoming "GET" "/" [("host", "proxy.test")])).1 = Outcome.reply r ∧
      parseURL refLib (String.mk ("/".data.drop 1)) = none ∧
      r.statusCode = 200 ∧ r.statusCode ≠ 404 ∧ r.body = "how to use the proxy" :=
  ⟨_, rfl, rfl, rfl, by decide, rfl⟩

/-- C10, amended: a request that is not `OPTIONS`, that the hook does not take, whose path
`parseURL` rejects and that is not of the one-slash form, is answered by `showUsage` without an
upstream call, when the name of the help file is not the name of a member that every object
inherits (`constructor`, `toString`, `__proto__` and the like): with status 200 and the help text
(from the cache, or read from the help file), or with status 500 and an empty body when the help
file cannot be read; in both cases with the CORS headers and a `content-type`. -/
theorem usage_reply (corsProksy : Config) (lib : NodeLib) (readFile : String → Option String)
    (help_text : Obj) (req : Request) (hm : req.method ≠ "OPTIONS")
    (hhook : ∀ hook, corsProksy.handleInitialRequest = some hook →
      hook (withCORS [] { req with corsProksyRequestState := corsProksy.initialState }).2 none = false)
    (hp : parseURL lib (String.mk (req.url.data.drop 1)) = none)
    (hs : isMissingSlash req.url = false)
    (hproto : corsProksy.helpFile ≠ "__proto__")
    (hfun : corsProksy.helpFile ∉ inheritedFunctions) :
    ∃ r, (getHandler corsProksy lib readFile help_text req).1 = Outcome.reply r ∧
      (getHandler corsProksy lib readFile help_text req).1.call = none ∧
      Obj.get r.headers "access-control-allow-origin" = some "*" ∧
      Obj.get r.headers "content-type" =
        some (if isHtmlFile corsProksy.helpFile then "text/html" else "text/plain") ∧
      match Obj.get help_text corsProksy.helpFile with
      | some text => r.statusCode = 200 ∧ r.body = text
      | none =>
        match readFile corsProksy.helpFile with
        | some data => r.statusCode = 200 ∧ r.body = data
        | none => r.statusCode = 500 ∧ r.body = "" := by
  rw [getHandler_usage corsProksy lib readFile help_text req hm hhook hp hs]
  obtain ⟨r, hr, hstatus⟩ := showUsage_status readFile help_text corsProksy.helpFile
    (withCORS [] { req with corsProksyRequestState := corsProksy.initialState }).1 hproto hfun
  have hh := showUsage_headers _ _ _ _ r hr
  refine ⟨r, hr, showUsage_call _ _ _ _, ?_, ?_, hstatus⟩
  · rw [hh, Obj.get_set_ne _ _ _ _ (by decide)]
    exact withCORS_allow_origin _ _
  · rw [hh, Obj.get_set_self]

/-- C10, amended, at a request for `/?robots.txt` sent to a proxy whose help file cannot be read
(status 500). -/
theorem usage_reply_witness :
    ∃ r, (getHandler (Config.default (fun _ => "")) refLib (fun _ => none) []
          (incoming "GET" "/?robots.txt" [("host", "proxy.test")])).1 = Outcome.reply r ∧
      (getHandler (Config.default (fun _ => "")) refLib (fun _ => none) []
          (incoming "GET" "/?robots.txt" [("host", "proxy.test")])).1.call = none ∧
      Obj.get r.headers "access-control-allow-origin" = some "*" ∧
      Obj.get r.headers "content-type" = some "text/plain" ∧
      r.statusCode = 500 ∧ r.body = "" :=
  usage_reply (Config.default (fun _ => "")) refLib (fun _ => none) []
    (incoming "GET" "/?robots.txt" [("host", "proxy.test")]) (by decide)
    (fun hook h => absurd h (by simp [Config.default])) rfl rfl (by decide) (by decide)

/-! ## `Access-Control-Expose-Headers` (C11) -/

theorem Obj.mem_keys_of_get (o : Obj) (k v : String) (h : Obj.get o k = some v) :
    k ∈ o.map Prod.fst := by
  induction o with
  | nil => exact absurd h (by simp [Obj.get, List.lookup])
  | cons p t ih =>
    obtain ⟨k1, v1⟩ := p
    by_cases hk : k = k1
    · subst hk; exact List.mem_cons_self _ _
    · have hb : (k == k1) = false := by simpa using hk
      simp only [Obj.get, List.lookup, hb] at h
      exact List.mem_cons_of_mem _ (ih h)

theorem Obj.mem_keys_delete (o : Obj) (k k' : String)
    (h : k' ∈ (Obj.delete o k).map Prod.fst) : k' ∈ o.map Prod.fst := by
  simp only [Obj.delete, List.mem_map, List.mem_filter] at h ⊢
  obtain ⟨p, ⟨hp, _⟩, hk⟩ := h
  exact ⟨p, hp, hk⟩

/-- The value that `withCORS` gives `access-control-expose-headers`: the keys of the map at that
moment, which are all the keys of the result but that header itself. -/
theorem withCORS_expose (headers : Obj) (request : Request) :
    ∃ names, Obj.get (withCORS headers request).1 "access-control-expose-headers" =
        some (",".intercalate names) ∧
      ∀ k, k ∈ (withCORS headers request).1.map Prod.fst ↔
        (k ∈ names ∨ k = "access-control-expose-headers") := by
  simp only [withCORS]
  refine ⟨_, Obj.get_set_self _ _ _, fun k => ?_⟩
  rw [Obj.mem_keys_set, Obj.mem_keys]

theorem withCORS_keys (headers : Obj) (request : Request) (k : String)
    (h : k ∈ (withCORS headers request).1.map Prod.fst) :
    k ∈ headers.map Prod.fst ∨ k ∈ corsKeys := by
  by_cases hk : k ∈ corsKeys
  · exact Or.inr hk
  · left
    have hsome : ∃ v, Obj.get (withCORS headers request).1 k = some v := by
      cases hg : Obj.get (withCORS headers request).1 k with
      | some v => exact ⟨v, rfl⟩
      | none =>
        exfalso
        simp only [Obj.get, List.lookup_eq_none_iff] at hg
        obtain ⟨p, hp, hpk⟩ := List.mem_map.mp h
        have := hg p hp
        simp [hpk] at this
    obtain ⟨v, hv⟩ := hsome
    rw [withCORS_get_other _ _ _ hk] at hv
    exact Obj.mem_keys_of_get _ _ _ hv

theorem handOn_keys (location : Url) (req : Request) (res : Response) (proxyRes : ProxyRes)
    (k : String) (h : k ∈ (handOn location req res proxyRes).proxyRes.headers.map Prod.fst) :
    k ∈ proxyRes.headers.map Prod.fst ∨ k = "x-final-url" ∨ k ∈ corsKeys := by
  simp only [handOn] at h
  rcases withCORS_keys _ _ _ h with h1 | h1
  · rw [Obj.mem_keys_set] at h1
    rcases h1 with h1 | h1
    · exact Or.inl (Obj.mem_keys_delete _ _ _ (Obj.mem_keys_delete _ _ _ h1))
    · exact Or.inr (Or.inl h1)
  · exact Or.inr (Or.inr h1)

/-- The keys of the map that `onProxyResponse` hands on come from the upstream response, apart
from `location`, `x-final-url` and the CORS headers. -/
theorem onProxyResponse_true_keys (lib : NodeLib) (proxyRes : ProxyRes) (req : Request)
    (res : Response) (step : Step) (h : onProxyResponse lib proxyRes req res = some step)
    (ht : step.result = true) (k : String) (hk : k ∈ step.proxyRes.headers.map Prod.fst) :
    k ∈ proxyRes.headers.map Prod.fst ∨ k = "location" ∨ k = "x-final-url" ∨ k ∈ corsKeys := by
  have key : ∀ (location : Url) (req' : Request) (res' : Response) (p : ProxyRes),
      step = handOn location req' res' p →
      (∀ k, k ∈ p.headers.map Prod.fst → k ∈ proxyRes.headers.map Prod.fst ∨ k = "location") →
      k ∈ proxyRes.headers.map Prod.fst ∨ k = "location" ∨ k = "x-final-url" ∨ k ∈ corsKeys := by
    intro location req' res' p hs hp
    rw [hs] at hk
    rcases handOn_keys _ _ _ _ k hk with h1 | h1 | h1
    · rcases hp k h1 with h2 | h2
      · exact Or.inl h2
      · exact Or.inr (Or.inl h2)
    · exact Or.inr (Or.inr (Or.inl h1))
    · exact Or.inr (Or.inr (Or.inr h1))
  have hsame : ∀ k, k ∈ proxyRes.headers.map Prod.fst →
      k ∈ proxyRes.headers.map Prod.fst ∨ k = "location" := fun _ hk => Or.inl hk
  have hset : ∀ (v : String) (k : String),
      k ∈ (Obj.set proxyRes.headers "location" v).map Prod.fst →
      k ∈ proxyRes.headers.map Prod.fst ∨ k = "location" := by
    intro v k hk
    exact (Obj.mem_keys_set _ _ _ _).mp hk
  unfold onProxyResponse at h
  simp only at h
  split at h
  · exact absurd h (by simp)
  · split_ifs at h
    all_goals first
      | exact key _ _ _ _ (Option.some.inj h).symm hsame
      | (split at h <;> first
          | exact key _ _ _ _ (Option.some.inj h).symm hsame
          | exact key _ _ _ _ (Option.some.inj h).symm (hset _)
          | (split at h
             · exact absurd h (by simp)
             · cases Option.some.inj h; exact absurd ht (by simp)))


/-- Every reply of the handler but the self-test reply has the headers that `withCORS` computed
on entry; only `content-type`, `vary`, `cache-control` and `location` may be set on top. -/
theorem getHandler_reply_headers (corsProksy : Config) (lib : NodeLib)
    (readFile : String → Option String) (help_text : Obj) (req : Request) (r : Reply)
    (h : (getHandler corsProksy lib readFile help_text req).1 = Outcome.reply r) :
    r = Reply.mk 200 none [("Content-Type", "text/plain")] "no" ∨
      ∀ k, k ≠ "content-type" → k ≠ "vary" → k ≠ "cache-control" → k ≠ "location" →
        Obj.get r.headers k =
          Obj.get (withCORS [] { req with corsProksyRequestState := corsProksy.initialState }).1 k := by
  unfold getHandler at h
  simp only at h
  repeat' split at h
  all_goals first
    | (have hr := Outcome.reply.inj h; subst hr; exact Or.inr (fun _ _ _ _ _ => rfl))
    | (have hr := Outcome.reply.inj h; subst hr; exact Or.inl rfl)
    | (right
       intro k h1 _ _ _
       rw [showUsage_headers _ _ _ _ _ h, Obj.get_set_ne _ _ _ _ (Ne.symm h1)])
    | (have hr := Outcome.reply.inj h; subst hr; right
       intro k _ h2 h3 h4
       rw [Obj.get_set_ne _ _ _ _ (Ne.symm h4), Obj.get_set_ne _ _ _ _ (Ne.symm h3),
         Obj.get_set_ne _ _ _ _ (Ne.symm h2)])
    | (simp at h)


/-- C11, as stated, fails: after a followed redirect `res` has `x-request-url` and
`X-CORS-Redirect-1`, and the value of `access-control-expose-headers` on the response handed on
lists neither; and the help page has a `content-type` that its value does not list. -/
theorem expose_headers_misses_proxy_headers :
    (∃ t h, feed refLib
          [{ statusCode := 302, headers := [("location", "/login")] },
            { statusCode := 200, headers := [("etag", "x")] }]
          (requestFor "GET" "/x" [("host", "proxy.test")] "http://a.test/x" 5) { headers := [] }
          = some t ∧ t.handed = some h ∧
        Obj.get t.res.headers "x-request-url" = some "http://a.test/x" ∧
        Obj.get t.res.headers "X-CORS-Redirect-1" = some "302 http://a.test/login" ∧
        Obj.get h.headers "access-control-expose-headers"
          = some "etag,x-final-url,access-control-allow-origin" ∧
        ∀ n ∈ listedNames "etag,x-final-url,access-control-allow-origin",
          lowerCase n ≠ "x-request-url" ∧ lowerCase n ≠ "x-cors-redirect-1") ∧
    (∃ r, (getHandler (Config.default (fun _ => "")) refLib (fun _ => some "how to use the proxy") []
          (incoming "GET" "/" [("host", "proxy.test")])).1 = Outcome.reply r ∧
        Obj.get r.headers "content-type" = some "text/plain" ∧
        Obj.get r.headers "access-control-expose-headers" = some "access-control-allow-origin" ∧
        ∀ n ∈ listedNames "access-control-allow-origin", lowerCase n ≠ "content-type") :=
  ⟨⟨_, _, rfl, rfl, rfl, rfl, rfl, by decide⟩, ⟨_, rfl, rfl, rfl, by decide⟩⟩

/-- C11, amended: the value of `access-control-expose-headers` is the comma-joined list of the
keys that the header map has when `withCORS` runs.  On a reply written by the request handler
(the self-test reply, which has no such header, apart) that list holds CORS header names only,
`access-control-allow-origin` among them, so it does not name the `content-type`, `vary`,
`cache-control` or `location` that the handler adds afterwards.  On an upstream response handed
on by `onProxyResponse` the list holds every key of the handed-on map but
`access-control-expose-headers` itself, `x-final-url` among them, and every name in it is a key
of the upstream response, `location`, `x-final-url` or a CORS header: the `x-request-url` and
`X-CORS-Redirect-n` set on `res` are not named unless the upstream response has such headers. -/
theorem expose_headers_lists_map_keys :
    (∀ (corsProksy : Config) (lib : NodeLib) (readFile : String → Option String) (help_text : Obj)
        (req : Request) (r : Reply),
        (getHandler corsProksy lib readFile help_text req).1 = Outcome.reply r →
        r = Reply.mk 200 none [("Content-Type", "text/plain")] "no" ∨
          ∃ names, Obj.get r.headers "access-control-expose-headers" = some (",".intercalate names) ∧
            "access-control-allow-origin" ∈ names ∧ ∀ k ∈ names, k ∈ corsKeys) ∧
    (∀ (lib : NodeLib) (proxyRes : ProxyRes) (req : Request) (res : Response) (step : Step),
        onProxyResponse lib proxyRes req res = some step → step.result = true →
        ∃ names,
          Obj.get step.proxyRes.headers "access-control-expose-headers"
            = some (",".intercalate names) ∧
          (∀ k, k ∈ step.proxyRes.headers.map Prod.fst ↔
            (k ∈ names ∨ k = "access-control-expose-headers")) ∧
          "x-final-url" ∈ names ∧
          ∀ k ∈ names, k ∈ proxyRes.headers.map Prod.fst ∨ k = "location" ∨ k = "x-final-url" ∨
            k ∈ corsKeys) := by
  constructor
  · intro corsProksy lib readFile help_text req r h
    rcases getHandler_reply_headers corsProksy lib readFile help_text req r h with h1 | h1
    · exact Or.inl h1
    · right
      obtain ⟨names, hget, hkeys⟩ :=
        withCORS_expose [] { req with corsProksyRequestState := corsProksy.initialState }
      refine ⟨names, ?_, ?_, ?_⟩
      · rw [h1 _ (by decide) (by decide) (by decide) (by decide)]
        exact hget
      · have hmem := Obj.mem_keys_of_get _ _ _
          (withCORS_allow_origin [] { req with corsProksyRequestState := corsProksy.initialState })
        exact ((hkeys _).mp hmem).resolve_right (by decide)
      · intro k hk
        rcases withCORS_keys _ _ k ((hkeys k).mpr (Or.inl hk)) with h2 | h2
        · exact absurd h2 (by simp)
        · exact h2
  · intro lib proxyRes req res step h ht
    obtain ⟨location, req', res', proxyRes', hs⟩ := onProxyResponse_true lib proxyRes req res step h ht
    have hmap : step.proxyRes.headers =
        (withCORS (Obj.set (Obj.delete (Obj.delete proxyRes'.headers "set-cookie") "set-cookie2")
          "x-final-url" location.href) req').1 := by
      rw [hs]; rfl
    obtain ⟨names, hget, hkeys⟩ := withCORS_expose
      (Obj.set (Obj.delete (Obj.delete proxyRes'.headers "set-cookie") "set-cookie2")
        "x-final-url" location.href) req'
    rw [← hmap] at hget hkeys
    refine ⟨names, hget, hkeys, ?_, ?_⟩
    · have hfin : Obj.get step.proxyRes.headers "x-final-url" = some location.href := by
        rw [hs]; exact handOn_final_url _ _ _ _
      exact ((hkeys _).mp (Obj.mem_keys_of_get _ _ _ hfin)).resolve_right (by decide)
    · intro k hk
      exact onProxyResponse_true_keys lib proxyRes req res step h ht k ((hkeys k).mpr (Or.inl hk))

/-- C11, amended, at the `Invalid host` reply to `/favicon.ico` and at an upstream response that
is handed on. -/
theorem expose_headers_lists_map_keys_witness :
    (∃ r names, (getHandler (Config.default (fun _ => "")) refLib (fun _ => none) []
          (incoming "GET" "/favicon.ico" [("host", "proxy.test")])).1 = Outcome.reply r ∧
        r.statusCode = 404 ∧
        Obj.get r.headers "access-control-expose-headers" = some (",".intercalate names) ∧
        "access-control-allow-origin" ∈ names ∧ ∀ k ∈ names, k ∈ corsKeys) ∧
    (∃ step names, onProxyResponse refLib { statusCode := 200, headers := [("etag", "x")] }
          (requestFor "GET" "/" [("host", "proxy.test")] "http://example.com/" 5) { headers := [] }
          = some step ∧
        Obj.get step.proxyRes.headers "access-control-expose-headers"
          = some (",".intercalate names) ∧
        "x-final-url" ∈ names) :=
  ⟨by
      obtain ⟨names, h1, h2, h3⟩ :=
        (expose_headers_lists_map_keys.1 (Config.default (fun _ => "")) refLib (fun _ => none) []
          (incoming "GET" "/favicon.ico" [("host", "proxy.test")]) _ rfl).resolve_left (by decide)
      exact ⟨_, names, rfl, rfl, h1, h2, h3⟩,
    by
      obtain ⟨names, h1, _, h3, _⟩ :=
        expose_headers_lists_map_keys.2 refLib { statusCode := 200, headers := [("etag", "x")] }
          (requestFor "GET" "/" [("host", "proxy.test")] "http://example.com/" 5) { headers := [] }
          _ rfl rfl
      exact ⟨_, names, rfl, h1, h3⟩⟩

/-! ## The redirect counter (C12) -/

/-- What one call of `onProxyResponse` does to the counter: a call that returns `false` has
incremented it to a value within the maximum; a call that returns `true` has left it or has
incremented it. -/
theorem onProxyResponse_count (lib : NodeLib) (proxyRes : ProxyRes) (req : Request)
    (res : Response) (step : Step) (h : onProxyResponse lib proxyRes req res = some step) :
    step.req.corsProksyRequestState.maxRedirects = req.corsProksyRequestState.maxRedirects ∧
      ((step.result = false ∧
          step.req.corsProksyRequestState.redirectCount_ =
            some (nextRedirectCount req.corsProksyRequestState.redirectCount_) ∧
          nextRedirectCount req.corsProksyRequestState.redirectCount_ ≤
            req.corsProksyRequestState.maxRedirects) ∨
        (step.result = true ∧
          (step.req.corsProksyRequestState.redirectCount_ =
              req.corsProksyRequestState.redirectCount_ ∨
            step.req.corsProksyRequestState.redirectCount_ =
              some (nextRedirectCount req.corsProksyRequestState.redirectCount_)))) := by
  unfold onProxyResponse at h
  simp only at h
  split at h
  · exact absurd h (by simp)
  · split_ifs at h
    all_goals first
      | (cases Option.some.inj h; exact ⟨rfl, Or.inr ⟨rfl, Or.inl rfl⟩⟩)
      | (split at h <;> first
          | (cases Option.some.inj h; exact ⟨rfl, Or.inr ⟨rfl, Or.inl rfl⟩⟩)
          | (cases Option.some.inj h; exact ⟨rfl, Or.inr ⟨rfl, Or.inr rfl⟩⟩)
          | (split at h
             · exact absurd h (by simp)
             · rename_i r c hpr
               obtain ⟨loc', hl', _, _, _, hst, hr⟩ := proxyRequest_some _ _ _ hpr
               cases Option.some.inj h
               rw [hr, hst]
               exact ⟨rfl, Or.inl ⟨rfl, rfl, by assumption⟩⟩))

/-- The counter in the reachable states. -/
theorem reach_count (lib : NodeLib) (start : Request)
    (hfresh : start.corsProksyRequestState.redirectCount_ = none) (req : Request)
    (awaiting : Bool) (h : Reach lib start req awaiting) :
    req.corsProksyRequestState.maxRedirects = start.corsProksyRequestState.maxRedirects ∧
      req.corsProksyRequestState.redirectCount_.getD 0 ≤
        start.corsProksyRequestState.maxRedirects + (if awaiting then 0 else 1) := by
  induction h with
  | initial => exact ⟨rfl, by rw [hfresh]; exact Nat.zero_le _⟩
  | response req res proxyRes step _ hstep ih =>
    obtain ⟨hmax, hcount⟩ := ih
    obtain ⟨hm, hc⟩ := onProxyResponse_count lib proxyRes req res step hstep
    refine ⟨hm.trans hmax, ?_⟩
    simp only [if_true, Nat.add_zero] at hcount
    rcases hc with ⟨hr, hc, hle⟩ | ⟨hr, hc | hc⟩
    · rw [hr, hc]
      simp only [Bool.not_false, if_true, Option.getD_some, Nat.add_zero]
      rw [← hmax]; exact hle
    · rw [hr, hc]
      simp only [Bool.not_true, Bool.false_eq_true, if_false]
      omega
    · rw [hr, hc, nextRedirectCount_eq]
      simp only [Bool.not_true, Bool.false_eq_true, if_false, Option.getD_some]
      omega


/-- C12, as stated, fails: with `maxRedirects = 0` one 302 with a `Location` leaves the counter
at 1, because line 148 increments it before line 149 compares it. -/
theorem counter_exceeds_maxRedirects :
    ∃ req, Reach refLib (requestFor "GET" "/x" [("host", "proxy.test")] "http://a.test/x" 0) req false ∧
      req.corsProksyRequestState.maxRedirects = 0 ∧
      req.corsProksyRequestState.redirectCount_ = some 1 :=
  ⟨_, Reach.response _ { headers := [] } { statusCode := 302, headers := [("location", "/login")] }
      (handOn (refParse "http://a.test/x")
        { requestFor "GET" "/x" [("host", "proxy.test")] "http://a.test/x" 0 with
          corsProksyRequestState :=
            { stateFor "http://a.test/x" 0 with redirectCount_ := some 1 } }
        { headers := [("x-request-url", "http://a.test/x")] }
        { statusCode := 302,
          headers := [("location", "http://proxy.test/http://a.test/login")] })
      Reach.initial rfl, rfl, rfl⟩

/-- C12, amended: in every request state reachable from a fresh state by upstream responses
processed by `onProxyResponse`, `maxRedirects` is as at the start and the counter is at most
`maxRedirects + 1`; it is at most `maxRedirects` in every state in which a response is still
awaited, that is, whenever a request has been re-issued. -/
theorem redirect_count_bounded (lib : NodeLib) (start : Request)
    (hfresh : start.corsProksyRequestState.redirectCount_ = none) (req : Request)
    (awaiting : Bool) (h : Reach lib start req awaiting) :
    req.corsProksyRequestState.maxRedirects = start.corsProksyRequestState.maxRedirects ∧
      req.corsProksyRequestState.redirectCount_.getD 0 ≤
        start.corsProksyRequestState.maxRedirects + 1 ∧
      (awaiting = true →
        req.corsProksyRequestState.redirectCount_.getD 0 ≤
          start.corsProksyRequestState.maxRedirects) := by
  obtain ⟨hmax, hcount⟩ := reach_count lib start hfresh req awaiting h
  refine ⟨hmax, ?_, ?_⟩
  · split_ifs at hcount <;> omega
  · intro ha
    rw [ha] at hcount
    simpa using hcount

/-- C12, amended, at the state after one followed 302 with `maxRedirects = 1`. -/
theorem redirect_count_bounded_witness :
    ∃ step, onProxyResponse refLib { statusCode := 302, headers := [("location", "/login")] }
        (requestFor "GET" "/x" [("host", "proxy.test")] "http://a.test/x" 1) { headers := [] }
        = some step ∧
      step.result = false ∧
      step.req.corsProksyRequestState.maxRedirects =
        (requestFor "GET" "/x" [("host", "proxy.test")] "http://a.test/x" 1).corsProksyRequestState.maxRedirects ∧
      step.req.corsProksyRequestState.redirectCount_.getD 0 ≤
        (requestFor "GET" "/x" [("host", "proxy.test")] "http://a.test/x" 1).corsProksyRequestState.maxRedirects + 1 ∧
      (true = true →
        step.req.corsProksyRequestState.redirectCount_.getD 0 ≤
          (requestFor "GET" "/x" [("host", "proxy.test")] "http://a.test/x" 1).corsProksyRequestState.maxRedirects) := by
  have h : ∃ step, onProxyResponse refLib { statusCode := 302, headers := [("location", "/login")] }
      (requestFor "GET" "/x" [("host", "proxy.test")] "http://a.test/x" 1) { headers := [] }
      = some step ∧ step.result = false := ⟨_, rfl, rfl⟩
  obtain ⟨step, hs, hr⟩ := h
  have hreach := Reach.response _ _ _ step Reach.initial hs
  rw [hr, Bool.not_false] at hreach
  exact ⟨step, hs, hr, redirect_count_bounded refLib _ rfl step.req true hreach⟩

end CorsProksy
